import Mathlib

/-!
# Monte Carlo path simulation core: buffered draws, path generation, path pricing

A shallow embedding of

* `ql/math/randomnumbers/rngbuffer.hpp` (`RngBuffer`),
* `ql/methods/montecarlo/pathgenerator.hpp` (`PathGenerator`),
* `ql/pricingengines/asian/mc_discr_arith_av_price.cpp` (`ArithmeticAPOPathPricer`).

Conventions of the embedding.

* `Real` is modelled by the rationals `ℚ`: every arithmetic step of the source is
  performed exactly.
* `Size` is `std::size_t`, taken as the unsigned 64-bit integers; its additions
  and subtractions are modulo `2 ^ 64` wherever an operand is a free input of the
  code (the count of past fixings, the size of a caller's grid).  The dimension of
  a buffer is bounded by the memory that holds one sample, far below `2 ^ 64 / 50`,
  so the index arithmetic on the storage is exact.
* `std::vector` / `Array` are lists.  A read `v[i]` is `v.getD i 0` and a write
  `v[i] = x` is `v.set i x`; the theorems that speak about an access state the
  bound under which the index is in range.
* `#pragma omp parallel for` is not modelled: the evolution loop runs in the order
  of its indices.
* a `QL_REQUIRE` that fails, a read past the end of an empty vector and the
  dereference of a null pointer are outcomes of type `Failure`.
* mutable members are explicit state: an operation returns its result together
  with the successor state.
-/

namespace QuantLib

/-! ## Basic types -/

/-- The ways an operation of the embedded code can end without a value. -/
inductive Failure where
  /-- `QL_REQUIRE(strike>=0.0, "strike less than zero not allowed")`. -/
  | strikeLessThanZero
  /-- `QL_REQUIRE(n>1, "the path cannot be empty")`. -/
  | pathEmpty
  /-- `QL_REQUIRE(process_, "process cannot be null")`. -/
  | processNull
  /-- `QL_REQUIRE(timeSteps > 0, "timeSteps must be positive")`. -/
  | timeStepsNotPositive
  /-- `QL_REQUIRE(dimension_ == ..., "sequence generator dimensionality (..) != timeSteps (..)")`. -/
  | dimensionalityMismatch
  /-- Element `0` of an empty vector is read (no defined value in the source). -/
  | outOfRange
  /-- A null `shared_ptr` is dereferenced (no defined value in the source). -/
  | nullDereference
  /-- A real is divided by a zero count: the IEEE result is an infinity or a NaN,
  which is not a real number. -/
  | divisionByZero
  deriving DecidableEq, Repr

/-- The modulus of `Size` arithmetic. -/
def sizeModulus : Nat := 2 ^ 64

/-- `a + b` on `Size`. -/
def sizeAdd (a b : Nat) : Nat := (a + b) % sizeModulus

/-- `a - b` on `Size` (for `b` below the modulus). -/
def sizeSub (a b : Nat) : Nat := (a + (sizeModulus - b)) % sizeModulus

/-- `Sample<T>`: a value with a weight. -/
structure Sample (α : Type) where
  value : α
  weight : ℚ
  deriving DecidableEq, Repr

/-- Modelled from the spec: `TimeGrid` (its header is not part of the sources):
"ordered times, `size()`, `dt(i)`, `mandatoryTimes()`". -/
structure TimeGrid where
  times_ : List ℚ
  dt_ : List ℚ
  mandatoryTimes_ : List ℚ
  deriving DecidableEq, Repr

namespace TimeGrid

/-- `TimeGrid::size()`. -/
def size (g : TimeGrid) : Nat := g.times_.length

/-- `TimeGrid::operator[]`. -/
def time (g : TimeGrid) (i : Nat) : ℚ := g.times_.getD i 0

/-- `TimeGrid::dt(i)`. -/
def dt (g : TimeGrid) (i : Nat) : ℚ := g.dt_.getD i 0

/-- `TimeGrid::mandatoryTimes()`. -/
def mandatoryTimes (g : TimeGrid) : List ℚ := g.mandatoryTimes_

end TimeGrid

/-- Modelled from the spec: `Path` (its header is not part of the sources):
"fixed-length ordered real sequence bound to a TimeGrid"; the weight lives in the
enclosing `Sample`. -/
structure Path where
  timeGrid_ : TimeGrid
  values_ : List ℚ
  deriving DecidableEq, Repr

namespace Path

/-- `Path::length()`. -/
def length (p : Path) : Nat := p.values_.length

/-- `Path::timeGrid()`. -/
def timeGrid (p : Path) : TimeGrid := p.timeGrid_

end Path

/-! ## `ArithmeticAPOPathPricer` -/

/-- `Option::Type`. -/
inductive OptionType where
  | Call
  | Put
  deriving DecidableEq, Repr

/-- Modelled from the spec: `PlainVanillaPayoff` (its header is not part of the
sources): "the standard call/put payoff parametrized by `type` and `strike`". -/
structure PlainVanillaPayoff where
  type_ : OptionType
  strike_ : ℚ
  deriving DecidableEq, Repr

/-- Modelled from the spec: `PlainVanillaPayoff::operator()`, the standard payoff:
`max(price - strike, 0)` for a call and `max(strike - price, 0)` for a put. -/
def PlainVanillaPayoff.apply (p : PlainVanillaPayoff) (price : ℚ) : ℚ :=
  match p.type_ with
  | OptionType.Call => max (price - p.strike_) 0
  | OptionType.Put => max (p.strike_ - price) 0

/-- The members of `ArithmeticAPOPathPricer`. -/
structure ArithmeticAPOPathPricer where
  payoff_ : PlainVanillaPayoff
  discount_ : ℚ
  runningSum_ : ℚ
  pastFixings_ : Nat
  deriving DecidableEq, Repr

namespace ArithmeticAPOPathPricer

/-- The constructor `ArithmeticAPOPathPricer(type, strike, discount, runningSum,
pastFixings)`: the members are initialised, then the strike is checked. -/
def construct (type : OptionType) (strike discount runningSum : ℚ) (pastFixings : Nat) :
    Except Failure ArithmeticAPOPathPricer :=
  let self : ArithmeticAPOPathPricer :=
    { payoff_ := { type_ := type, strike_ := strike }
      discount_ := discount
      runningSum_ := runningSum
      pastFixings_ := pastFixings }
  if strike ≥ 0 then Except.ok self else Except.error Failure.strikeLessThanZero

/-- The loop `for (Size i = 0; i < n; ++i) sum += pathData[i];`. -/
def accumulateAll (pathData : List ℚ) (n : Nat) (sum : ℚ) : ℚ :=
  (List.range n).foldl (fun s i => s + pathData.getD i 0) sum

/-- The loop `for (Size i = 1; i < n; ++i) sum += pathData[i-1];`. -/
def accumulateFromSecond (pathData : List ℚ) (n : Nat) (sum : ℚ) : ℚ :=
  (List.range' 1 (n - 1)).foldl (fun s i => s + pathData.getD (i - 1) 0) sum

/-- The pair `(sum, fixings)` at the end of the branch on the first mandatory
time `t0`, for a path of length `n`. -/
def sumAndFixings (self : ArithmeticAPOPathPricer) (path : Path) (n : Nat) (t0 : ℚ) :
    ℚ × Nat :=
  if t0 = 0 then
    -- include initial fixing: pathData = path.begin()
    (accumulateAll path.values_ n self.runningSum_, sizeAdd self.pastFixings_ n)
  else
    -- pathData = path.begin() + 1
    (accumulateFromSecond (path.values_.drop 1) n self.runningSum_,
      sizeSub (sizeAdd self.pastFixings_ n) 1)

/-- The call operator `ArithmeticAPOPathPricer::operator()(const Path&)`. -/
def evaluate (self : ArithmeticAPOPathPricer) (path : Path) : Except Failure ℚ :=
  let n := path.length
  if ¬ (n > 1) then Except.error Failure.pathEmpty
  else
    match path.timeGrid.mandatoryTimes with
    | [] => Except.error Failure.outOfRange
    | t0 :: _ =>
      let sf := sumAndFixings self path n t0
      if sf.2 = 0 then Except.error Failure.divisionByZero
      else
        let averagePrice := sf.1 / (sf.2 : ℚ)
        Except.ok (self.discount_ * self.payoff_.apply averagePrice)

end ArithmeticAPOPathPricer

/-! ## `RngBuffer` -/

/-- The interface `RngBuffer<RNG>` uses of its template argument, for a generator
whose mutable state has type `σ`: `dimension()` and `nextSequence()`, the latter
returning the drawn sample together with the successor state. -/
structure RNG (σ : Type) where
  dimension : σ → Nat
  nextSequence : σ → Sample (List ℚ) × σ

/-- The generator `G` with a counter of the `nextSequence()` calls made on it
next to its state; its samples and dimension are those of `G`. -/
def RNG.counted {σ : Type} (G : RNG σ) : RNG (σ × Nat) where
  dimension := fun s => G.dimension s.1
  nextSequence := fun s => ((G.nextSequence s.1).1, ((G.nextSequence s.1).2, s.2 + 1))

/-- The state of the source `G` after `n` calls of `nextSequence()` made from the
state `rng`. -/
def RNG.stateAfter {σ : Type} (G : RNG σ) (rng : σ) (n : Nat) : σ :=
  (fun s => (G.nextSequence s).2)^[n] rng

/-- The successive draws of the source `G` started in the state `rng`:
`G.draw rng n` is the sample returned by call number `n + 1`. -/
def RNG.draw {σ : Type} (G : RNG σ) (rng : σ) (n : Nat) : Sample (List ℚ) :=
  (G.nextSequence (G.stateAfter rng n)).1

/-- `std::copy(first, last, out)` where `out` points at position `pos` of the
vector `dst`: the elements are written one by one; a position past the end of
`dst` is left unwritten. -/
def stdCopy : List ℚ → List ℚ → Nat → List ℚ
  | [], dst, _ => dst
  | x :: xs, dst, pos => stdCopy xs (dst.set pos x) (pos + 1)

/-- The members of `RngBuffer<RNG>`. -/
structure RngBuffer (σ : Type) where
  rng_ : σ
  dimension_ : Nat
  bufferSize_ : Nat
  currentIndex_ : Nat
  buffer_ : List ℚ
  sequence_ : Sample (List ℚ)

namespace RngBuffer

variable {σ : Type}

/-- The body of the loop of `refillBuffer()` at index `i`: one sample is drawn
from `rng_` and copied to `buffer_.begin() + i * dimension_`. -/
def refillStep (G : RNG σ) (self : RngBuffer σ) (i : Nat) : RngBuffer σ :=
  let drawn := G.nextSequence self.rng_
  { self with
    rng_ := drawn.2
    buffer_ := stdCopy drawn.1.value self.buffer_ (i * self.dimension_) }

/-- The private member `RngBuffer::refillBuffer()`:
`for (Size i = 0; i < bufferSize_; ++i) { ... }`. -/
def refillBuffer (G : RNG σ) (self : RngBuffer σ) : RngBuffer σ :=
  (List.range self.bufferSize_).foldl (refillStep G) self

/-- The constructor `RngBuffer(RNG rng)`: block size `50`, cursor at the block
size, zero-initialised storage and last sample (weight `1.0`), then one refill. -/
def construct (G : RNG σ) (rng : σ) : RngBuffer σ :=
  let dimension := G.dimension rng
  let bufferSize := 50
  refillBuffer G
    { rng_ := rng
      dimension_ := dimension
      bufferSize_ := bufferSize
      currentIndex_ := bufferSize
      buffer_ := List.replicate (bufferSize * dimension) 0
      sequence_ := { value := List.replicate dimension 0, weight := 1 } }

/-- The body of the copy loop of `nextSequence()` at index `i`:
`sequence_.value[i] = buffer_[currentIndex_ * dimension_ + i];`. -/
def copyStep (self : RngBuffer σ) (i : Nat) : RngBuffer σ :=
  { self with
    sequence_ :=
      { self.sequence_ with
        value := self.sequence_.value.set i
          (self.buffer_.getD (self.currentIndex_ * self.dimension_ + i) 0) } }

/-- `RngBuffer::nextSequence()`: the returned sample and the successor state. -/
def nextSequence (G : RNG σ) (self : RngBuffer σ) : Sample (List ℚ) × RngBuffer σ :=
  let s1 :=
    if self.currentIndex_ ≥ self.bufferSize_ then
      { refillBuffer G self with currentIndex_ := 0 }
    else self
  -- Copy values from buffer to sequence
  let s2 := (List.range s1.dimension_).foldl copyStep s1
  let s3 := { s2 with sequence_ := { s2.sequence_ with weight := 1 } }
  let s4 := { s3 with currentIndex_ := s3.currentIndex_ + 1 }
  (s4.sequence_, s4)

/-- The first half of `nextSequence()`: the refill and the reset of the cursor
when the block is exhausted. -/
def refillIfExhausted (G : RNG σ) (self : RngBuffer σ) : RngBuffer σ :=
  if self.currentIndex_ ≥ self.bufferSize_ then
    { refillBuffer G self with currentIndex_ := 0 }
  else self

/-- The second half of `nextSequence()`: the slot at the cursor is copied to the
last sample, its weight is set and the cursor advances. -/
def copyOut (self : RngBuffer σ) : Sample (List ℚ) × RngBuffer σ :=
  let s2 := (List.range self.dimension_).foldl copyStep self
  let s3 := { s2 with sequence_ := { s2.sequence_ with weight := 1 } }
  let s4 := { s3 with currentIndex_ := s3.currentIndex_ + 1 }
  (s4.sequence_, s4)

/-- `RngBuffer::lastSequence()`: the returned sample and the (same) state. -/
def lastSequence (self : RngBuffer σ) : Sample (List ℚ) × RngBuffer σ :=
  (self.sequence_, self)

/-- `RngBuffer::dimension()`. -/
def dimension (self : RngBuffer σ) : Nat := self.dimension_

/-- The buffer over `G` that a buffer over `G.counted` is once the counter is
dropped from the state of the source. -/
def forgetCount (self : RngBuffer (σ × Nat)) : RngBuffer σ :=
  { rng_ := self.rng_.1
    dimension_ := self.dimension_
    bufferSize_ := self.bufferSize_
    currentIndex_ := self.currentIndex_
    buffer_ := self.buffer_
    sequence_ := self.sequence_ }

/-- The state of the buffer after `k` successive calls of `nextSequence()`. -/
def afterCalls (G : RNG σ) (k : Nat) (self : RngBuffer σ) : RngBuffer σ :=
  (fun b => (nextSequence G b).2)^[k] self

/-- The number of `nextSequence()` calls received by the source `G` (started in
state `rng`) once a buffer has been constructed over it and `nextSequence()` has
been called `k` times on the buffer. -/
def sourceCalls (G : RNG σ) (rng : σ) (k : Nat) : Nat :=
  (afterCalls G.counted k (construct G.counted (rng, 0))).rng_.2

/-- The state of the buffer after `k` successive calls of `lastSequence()`. -/
def afterLastCalls (k : Nat) (self : RngBuffer σ) : RngBuffer σ :=
  (fun b => (lastSequence b).2)^[k] self

/-- The buffer `b` over `G`, constructed on the source state `rng`, holds the block
of `50` draws that starts at draw number `base`: its sizes are those fixed at
construction, the source is `50` draws past `base`, and slot `j` of the storage
holds the values of draw `base + j`. -/
def HoldsBlock (G : RNG σ) (rng : σ) (base : Nat) (b : RngBuffer σ) : Prop :=
  b.dimension_ = G.dimension rng ∧
  b.bufferSize_ = 50 ∧
  b.buffer_.length = 50 * G.dimension rng ∧
  b.sequence_.value.length = G.dimension rng ∧
  b.rng_ = G.stateAfter rng (base + 50) ∧
  ∀ j, j < 50 → ∀ i, i < G.dimension rng →
    b.buffer_.getD (j * G.dimension rng + i) 0 = (G.draw rng (base + j)).value.getD i 0

/-- The states of a buffer over `G` that are reachable from its construction on
the source state `rng` by calls of `nextSequence()` and `lastSequence()`. -/
inductive ReachableFrom (G : RNG σ) (rng : σ) : RngBuffer σ → Prop where
  | fresh : ReachableFrom G rng (construct G rng)
  | afterNext {b : RngBuffer σ} :
      ReachableFrom G rng b → ReachableFrom G rng (nextSequence G b).2
  | afterLast {b : RngBuffer σ} :
      ReachableFrom G rng b → ReachableFrom G rng (lastSequence b).2

end RngBuffer

/-! ## `PathGenerator` -/

/-- Modelled from the spec: `StochasticProcess1D` (its header is not part of the
sources): "StochasticProcess (1-D diffusion): `x0() -> real`,
`evolve(t, x, dt, dw) -> real`". -/
structure StochasticProcess1D where
  x0 : ℚ
  evolve : ℚ → ℚ → ℚ → ℚ → ℚ

/-- Modelled from the spec: `StochasticProcess` (its header is not part of the
sources): a process either exposes the 1-D diffusion capability or does not. -/
inductive StochasticProcess where
  | oneDimensional (p : StochasticProcess1D)
  | multiDimensional

/-- `ext::dynamic_pointer_cast<StochasticProcess1D>(process)` on a (possibly null)
shared pointer: null unless the pointee is a 1-D process. -/
def dynamicPointerCast1D : Option StochasticProcess → Option StochasticProcess1D
  | some (StochasticProcess.oneDimensional p) => some p
  | some StochasticProcess.multiDimensional => none
  | none => none

/-- Modelled from the spec: `BrownianBridge` (its header is not part of the
sources): "`transform(inputVector[D]) -> outputVector[D]`: deterministic, pure
given the transform's fixed time-grid geometry". -/
structure BrownianBridge where
  transform : List ℚ → List ℚ

/-- Modelled from the spec: the constructor `Path(timeGrid)` (its header is not
part of the sources): "Invariant: `path.length() == timeGrid.size()`"; the values
are overwritten by the generator before they are read. -/
def Path.ofGrid (g : TimeGrid) : Path :=
  { timeGrid_ := g, values_ := List.replicate g.size 0 }

/-- The members of `PathGenerator<GSG>`; `process_` is a shared pointer that may
be null. -/
structure PathGenerator (σ : Type) where
  brownianBridge_ : Bool
  dimension_ : Nat
  timeGrid_ : TimeGrid
  process_ : Option StochasticProcess1D
  generator_ : RngBuffer σ
  bb_ : BrownianBridge

namespace PathGenerator

variable {σ : Type}

/-- The constructor `PathGenerator(process, length, timeSteps, generator,
brownianBridge)`.  The constructors of `TimeGrid` and of `BrownianBridge` are not
part of the sources and are the parameters `gridOf` and `bridgeOf`. -/
def constructLength (G : RNG σ) (gridOf : ℚ → Nat → TimeGrid)
    (bridgeOf : TimeGrid → BrownianBridge) (process : Option StochasticProcess)
    (length : ℚ) (timeSteps : Nat) (generator : σ) (brownianBridge : Bool) :
    Except Failure (PathGenerator σ) :=
  let self : PathGenerator σ :=
    { brownianBridge_ := brownianBridge
      dimension_ := timeSteps
      timeGrid_ := gridOf length timeSteps
      process_ := dynamicPointerCast1D process
      generator_ := RngBuffer.construct G generator
      bb_ := bridgeOf (gridOf length timeSteps) }
  if self.process_.isNone then Except.error Failure.processNull
  else if ¬ (timeSteps > 0) then Except.error Failure.timeStepsNotPositive
  else if ¬ (self.dimension_ = timeSteps) then Except.error Failure.dimensionalityMismatch
  else Except.ok self

/-- The constructor `PathGenerator(process, timeGrid, generator, brownianBridge)`.
The constructor of `BrownianBridge` is the parameter `bridgeOf`. -/
def constructGrid (G : RNG σ) (bridgeOf : TimeGrid → BrownianBridge)
    (process : Option StochasticProcess) (timeGrid : TimeGrid) (generator : σ)
    (brownianBridge : Bool) : Except Failure (PathGenerator σ) :=
  let self : PathGenerator σ :=
    { brownianBridge_ := brownianBridge
      dimension_ := sizeSub timeGrid.size 1
      timeGrid_ := timeGrid
      process_ := dynamicPointerCast1D process
      generator_ := RngBuffer.construct G generator
      bb_ := bridgeOf timeGrid }
  if ¬ (self.dimension_ = sizeSub self.timeGrid_.size 1) then
    Except.error Failure.dimensionalityMismatch
  else Except.ok self

/-- The vector that `next(bool)` writes to `temp` for the drawn vector `v`: the
bridge transform of `v` when the bridge is in use, `v` itself otherwise. -/
def incrementsOf (self : PathGenerator σ) (v : List ℚ) : List ℚ :=
  if self.brownianBridge_ then self.bb_.transform v else v

/-- The body of the evolution loop of `next(bool)` at index `i`:
`result.value[i] = process_->evolve(t, result.value[i-1], dt,
antithetic ? -temp[i-1] : temp[i-1]);` with `t = timeGrid_[i-1]` and
`dt = timeGrid_.dt(i-1)`. -/
def evolveStep (process : StochasticProcess1D) (timeGrid : TimeGrid) (temp : List ℚ)
    (antithetic : Bool) (values : List ℚ) (i : Nat) : List ℚ :=
  let t := timeGrid.time (i - 1)
  let dt := timeGrid.dt (i - 1)
  values.set i (process.evolve t (values.getD (i - 1) 0) dt
    (if antithetic then - temp.getD (i - 1) 0 else temp.getD (i - 1) 0))

/-- The evolution loop `for (Size i=1; i<result.value.length(); i++)`, run in the
order of its indices. -/
def evolveLoop (process : StochasticProcess1D) (timeGrid : TimeGrid) (temp : List ℚ)
    (antithetic : Bool) (values : List ℚ) : List ℚ :=
  (List.range' 1 (values.length - 1)).foldl (evolveStep process timeGrid temp antithetic)
    values

/-- The private member `PathGenerator::next(bool antithetic)`: the returned sample
and the successor state of the generator (its buffer is mutable). -/
def nextImpl (G : RNG σ) (self : PathGenerator σ) (antithetic : Bool) :
    Except Failure (Sample Path × PathGenerator σ) :=
  -- Create local storage for this path generation
  let result : Sample Path := { value := Path.ofGrid self.timeGrid_, weight := 1 }
  let temp : List ℚ := List.replicate self.dimension_ 0
  let drawn :=
    if antithetic then self.generator_.lastSequence else self.generator_.nextSequence G
  let rng_sequence := drawn.1
  let temp :=
    if self.brownianBridge_ then stdCopy (self.bb_.transform rng_sequence.value) temp 0
    else stdCopy rng_sequence.value temp 0
  let weight := rng_sequence.weight
  match self.process_ with
  | none => Except.error Failure.nullDereference
  | some process =>
    let values := result.value.values_.set 0 process.x0
    let values := evolveLoop process self.timeGrid_ temp antithetic values
    Except.ok
      ({ value := { result.value with values_ := values }, weight := weight },
        { self with generator_ := drawn.2 })

/-- `PathGenerator::next()`. -/
def next (G : RNG σ) (self : PathGenerator σ) :
    Except Failure (Sample Path × PathGenerator σ) :=
  nextImpl G self false

/-- `PathGenerator::antithetic()`. -/
def antithetic (G : RNG σ) (self : PathGenerator σ) :
    Except Failure (Sample Path × PathGenerator σ) :=
  nextImpl G self true

/-- The state of the generator after `k` successive calls of `antithetic()`; a
call that fails ends the run with its failure. -/
def afterAntithetics (G : RNG σ) : Nat → PathGenerator σ → Except Failure (PathGenerator σ)
  | 0, self => Except.ok self
  | k + 1, self =>
    match antithetic G self with
    | Except.ok (_, g) => afterAntithetics G k g
    | Except.error e => Except.error e

end PathGenerator

/-! ## Concrete inputs used by the closed statements below -/

/-- A two-point grid `{0, 1}` whose first mandatory time is `0`. -/
def gridFromZero : TimeGrid :=
  { times_ := [0, 1], dt_ := [1], mandatoryTimes_ := [0, 1] }

/-- A two-point grid `{0, 1}` whose only mandatory time is `1`. -/
def gridToOne : TimeGrid :=
  { times_ := [0, 1], dt_ := [1], mandatoryTimes_ := [1] }

/-- The path `[1, 1]` on `gridFromZero`. -/
def unitPathFromZero : Path := { timeGrid_ := gridFromZero, values_ := [1, 1] }

/-- The path `[1, 1]` on `gridToOne`. -/
def unitPathToOne : Path := { timeGrid_ := gridToOne, values_ := [1, 1] }

/-- A call pricer with strike `0`, discount `1`, no running sum and the largest
`Size` as count of past fixings. -/
def saturatedPricer : ArithmeticAPOPathPricer :=
  { payoff_ := { type_ := OptionType.Call, strike_ := 0 }
    discount_ := 1
    runningSum_ := 0
    pastFixings_ := 2 ^ 64 - 1 }

/-- The path with the single value `100` on `gridFromZero`. -/
def singletonPath : Path := { timeGrid_ := gridFromZero, values_ := [100] }

/-- A call pricer with strike `1`, discount `1`, running sum `1` and three past
fixings. -/
def seasonedPricer : ArithmeticAPOPathPricer :=
  { payoff_ := { type_ := OptionType.Call, strike_ := 1 }
    discount_ := 1
    runningSum_ := 1
    pastFixings_ := 3 }

/-- A 1-D process started at `100` whose step adds `x * dt` and the increment `dw`
to the current value `x`. -/
def sampleProcess : StochasticProcess1D :=
  { x0 := 100, evolve := fun _ x dt dw => x + x * dt + dw }

/-- A source of dimension `2` whose state is a counter `n` and whose `n`-th sample
is `[n, n + 1]` with weight `1`. -/
def rampSource : RNG Nat :=
  { dimension := fun _ => 2
    nextSequence := fun n =>
      ({ value := [(n : ℚ), ((n + 1 : Nat) : ℚ)], weight := 1 }, n + 1) }

/-- A three-point grid `{0, 1, 2}` whose mandatory times are `1` and `2`. -/
def threePointGrid : TimeGrid :=
  { times_ := [0, 1, 2], dt_ := [1, 1], mandatoryTimes_ := [1, 2] }

/-- A bridge whose transform reverses its input. -/
def reversingBridge : BrownianBridge := { transform := List.reverse }

/-- A generator of dimension `2` over `rampSource` on `threePointGrid`, with a
freshly constructed buffer; `useBridge` selects the bridge. -/
def sampleGenerator (useBridge : Bool) : PathGenerator Nat :=
  { brownianBridge_ := useBridge
    dimension_ := 2
    timeGrid_ := threePointGrid
    process_ := some sampleProcess
    generator_ := RngBuffer.construct rampSource 0
    bb_ := reversingBridge }

/-- A source of dimension `3` whose state is a counter `n` and whose `n`-th sample
is `[n, n, n]` with weight `1`. -/
def tripleSource : RNG Nat :=
  { dimension := fun _ => 3
    nextSequence := fun n => ({ value := [(n : ℚ), (n : ℚ), (n : ℚ)], weight := 1 }, n + 1) }

/-- A source of dimension `0`, whose samples are empty. -/
def emptySource : RNG Unit :=
  { dimension := fun _ => 0
    nextSequence := fun u => ({ value := [], weight := 1 }, u) }

/-- Modelled from the spec: the constructor `TimeGrid(length, steps)` (not part of
the sources), "length+stepCount which builds a uniform grid": `steps + 1`
equally spaced times from `0` to `length`, the end being the mandatory time. -/
def uniformGrid (length : ℚ) (steps : Nat) : TimeGrid :=
  { times_ := (List.range (steps + 1)).map (fun i => (i : ℚ) * (length / (steps : ℚ)))
    dt_ := List.replicate steps (length / (steps : ℚ))
    mandatoryTimes_ := [length] }

/-- A bridge constructor that returns `reversingBridge` on every grid. -/
def reversingBridgeOf : TimeGrid → BrownianBridge := fun _ => reversingBridge

/-- A six-point grid `{0, 1, 2, 3, 4, 5}` (five steps). -/
def sixPointGrid : TimeGrid :=
  { times_ := [0, 1, 2, 3, 4, 5], dt_ := [1, 1, 1, 1, 1], mandatoryTimes_ := [5] }

/-- The grid with the single point `0` (no step). -/
def singlePointGrid : TimeGrid :=
  { times_ := [0], dt_ := [], mandatoryTimes_ := [0] }

/-- The five-point grid `{0, 1, 2, 3, 4}` all of whose times are mandatory, the
first being `0`. -/
def exampleGrid : TimeGrid :=
  { times_ := [0, 1, 2, 3, 4], dt_ := [1, 1, 1, 1], mandatoryTimes_ := [0, 1, 2, 3, 4] }

/-- The path `[100, 102, 98, 105, 110]` on `exampleGrid`. -/
def examplePath : Path :=
  { timeGrid_ := exampleGrid, values_ := [100, 102, 98, 105, 110] }

/-- The call pricer with strike `100`, discount `0.95`, no running sum and no past
fixing. -/
def examplePricer : ArithmeticAPOPathPricer :=
  { payoff_ := { type_ := OptionType.Call, strike_ := 100 }
    discount_ := 19 / 20
    runningSum_ := 0
    pastFixings_ := 0 }

/-- The path `[0, 0]` on `gridFromZero`. -/
def zeroPath : Path := { timeGrid_ := gridFromZero, values_ := [0, 0] }

/-- The pricer of the given type with strike `1`, discount `1`, no running sum and
`2 ^ 64 - 2` past fixings. -/
def wrappingPricer (type : OptionType) : ArithmeticAPOPathPricer :=
  { payoff_ := { type_ := type, strike_ := 1 }
    discount_ := 1
    runningSum_ := 0
    pastFixings_ := 2 ^ 64 - 2 }

/-- A source of dimension `2` that attaches the weight `7` to its samples. -/
def weightedSource : RNG Nat :=
  { dimension := fun _ => 2
    nextSequence := fun n =>
      ({ value := [(n : ℚ), ((n + 1 : Nat) : ℚ)], weight := 7 }, n + 1) }

/-- A generator of dimension `2` over `weightedSource` on `threePointGrid`, with a
freshly constructed buffer and no bridge. -/
def weightedGenerator : PathGenerator Nat :=
  { brownianBridge_ := false
    dimension_ := 2
    timeGrid_ := threePointGrid
    process_ := some sampleProcess
    generator_ := RngBuffer.construct weightedSource 0
    bb_ := reversingBridge }

/-! # Theorems -/

/-! ## Frame lemmas for the loops of `RngBuffer` -/

theorem stdCopy_length (src dst : List ℚ) (pos : Nat) :
    (stdCopy src dst pos).length = dst.length := by
  induction src generalizing dst pos with
  | nil => rfl
  | cons x xs ih => simp only [stdCopy, ih, List.length_set]

theorem stdCopy_getElem? (src dst : List ℚ) (pos i : Nat) :
    (stdCopy src dst pos)[i]? =
      if pos ≤ i ∧ i < pos + src.length ∧ i < dst.length then src[i - pos]? else dst[i]? := by
  induction src generalizing dst pos with
  | nil =>
    have h : ¬ (pos ≤ i ∧ i < pos + ([] : List ℚ).length ∧ i < dst.length) := by
      simp only [List.length_nil]; omega
    simp only [stdCopy, h, if_false]
  | cons x xs ih =>
    simp only [stdCopy]
    rw [ih, List.length_set, List.getElem?_set, List.length_cons]
    by_cases hi : pos = i
    · subst hi
      have h1 : ¬ (pos + 1 ≤ pos ∧ pos < pos + 1 + xs.length ∧ pos < dst.length) := by omega
      simp only [h1, if_false, if_true, Nat.sub_self, List.getElem?_cons_zero]
      by_cases h2 : pos < dst.length
      · have h3 : pos ≤ pos ∧ pos < pos + (xs.length + 1) ∧ pos < dst.length := by omega
        rw [if_pos h2, if_pos h3]
      · have h3 : ¬ (pos ≤ pos ∧ pos < pos + (xs.length + 1) ∧ pos < dst.length) := by omega
        have h4 : dst.length ≤ pos := by omega
        rw [if_neg h2, if_neg h3]
        exact (List.getElem?_eq_none h4).symm
    · simp only [hi, if_false]
      by_cases h1 : pos + 1 ≤ i ∧ i < pos + 1 + xs.length ∧ i < dst.length
      · have h3 : pos ≤ i ∧ i < pos + (xs.length + 1) ∧ i < dst.length := by omega
        simp only [h1, h3, if_true, and_self]
        have : i - pos = (i - (pos + 1)) + 1 := by omega
        rw [this, List.getElem?_cons_succ]
      · have h3 : ¬ (pos ≤ i ∧ i < pos + (xs.length + 1) ∧ i < dst.length) := by omega
        simp only [h1, h3, if_false]

theorem stdCopy_zero_of_length_eq (src dst : List ℚ) (h : src.length = dst.length) :
    stdCopy src dst 0 = src := by
  apply List.ext_getElem?
  intro i
  rw [stdCopy_getElem?]
  by_cases hi : i < src.length
  · have : 0 ≤ i ∧ i < 0 + src.length ∧ i < dst.length := by omega
    simp only [this, and_self, if_true, Nat.sub_zero]
  · have : ¬ (0 ≤ i ∧ i < 0 + src.length ∧ i < dst.length) := by omega
    simp only [this, if_false]
    rw [List.getElem?_eq_none (by omega), List.getElem?_eq_none (by omega)]

theorem getD_set_ne (l : List ℚ) (i j : Nat) (a : ℚ) (h : i ≠ j) :
    (l.set i a).getD j 0 = l.getD j 0 := by
  rw [List.getD_eq_getElem?_getD, List.getD_eq_getElem?_getD, List.getElem?_set_ne h]

theorem getD_set_self (l : List ℚ) (i : Nat) (a : ℚ) (h : i < l.length) :
    (l.set i a).getD i 0 = a := by
  rw [List.getD_eq_getElem?_getD, List.getElem?_set_self h]
  rfl

namespace RngBuffer

variable {σ : Type}

theorem foldl_refillStep_frame (G : RNG σ) (l : List Nat) (b : RngBuffer σ) :
    (l.foldl (refillStep G) b).dimension_ = b.dimension_ ∧
    (l.foldl (refillStep G) b).bufferSize_ = b.bufferSize_ ∧
    (l.foldl (refillStep G) b).currentIndex_ = b.currentIndex_ ∧
    (l.foldl (refillStep G) b).sequence_ = b.sequence_ ∧
    (l.foldl (refillStep G) b).buffer_.length = b.buffer_.length := by
  induction l generalizing b with
  | nil => simp
  | cons i l ih =>
    rw [List.foldl_cons]
    obtain ⟨h1, h2, h3, h4, h5⟩ := ih (refillStep G b i)
    refine ⟨h1, h2, h3, h4, ?_⟩
    rw [h5]
    exact stdCopy_length _ _ _

theorem foldl_refillStep_count (G : RNG σ) (l : List Nat) (b : RngBuffer (σ × Nat)) :
    (l.foldl (refillStep G.counted) b).rng_.2 = b.rng_.2 + l.length := by
  induction l generalizing b with
  | nil => simp
  | cons i l ih =>
    rw [List.foldl_cons, ih, List.length_cons]
    simp only [refillStep, RNG.counted]
    omega

theorem refillBuffer_count (G : RNG σ) (b : RngBuffer (σ × Nat)) :
    (refillBuffer G.counted b).rng_.2 = b.rng_.2 + b.bufferSize_ := by
  unfold refillBuffer
  rw [foldl_refillStep_count, List.length_range]

theorem foldl_copyStep_frame (l : List Nat) (b : RngBuffer σ) :
    (l.foldl copyStep b).rng_ = b.rng_ ∧
    (l.foldl copyStep b).dimension_ = b.dimension_ ∧
    (l.foldl copyStep b).bufferSize_ = b.bufferSize_ ∧
    (l.foldl copyStep b).currentIndex_ = b.currentIndex_ ∧
    (l.foldl copyStep b).buffer_ = b.buffer_ ∧
    (l.foldl copyStep b).sequence_.weight = b.sequence_.weight ∧
    (l.foldl copyStep b).sequence_.value.length = b.sequence_.value.length := by
  induction l generalizing b with
  | nil => simp
  | cons i l ih =>
    rw [List.foldl_cons]
    obtain ⟨h1, h2, h3, h4, h5, h6, h7⟩ := ih (copyStep b i)
    refine ⟨h1, h2, h3, h4, h5, h6, ?_⟩
    rw [h7]
    simp only [copyStep, List.length_set]

theorem nextSequence_bufferSize (G : RNG σ) (b : RngBuffer σ) :
    (nextSequence G b).2.bufferSize_ = b.bufferSize_ := by
  unfold nextSequence
  simp only [(foldl_copyStep_frame _ _).2.2.1]
  split
  · exact (foldl_refillStep_frame G _ b).2.1
  · rfl

theorem nextSequence_currentIndex (G : RNG σ) (b : RngBuffer σ) :
    (nextSequence G b).2.currentIndex_ =
      (if b.currentIndex_ ≥ b.bufferSize_ then 0 else b.currentIndex_) + 1 := by
  unfold nextSequence
  simp only [(foldl_copyStep_frame _ _).2.2.2.1]
  split <;> rfl

theorem nextSequence_count (G : RNG σ) (b : RngBuffer (σ × Nat)) :
    (nextSequence G.counted b).2.rng_.2 =
      b.rng_.2 + (if b.currentIndex_ ≥ b.bufferSize_ then b.bufferSize_ else 0) := by
  unfold nextSequence
  simp only [(foldl_copyStep_frame _ _).1]
  split
  · exact refillBuffer_count G b
  · rfl

theorem foldl_refillStep_forgetCount (G : RNG σ) (l : List Nat) (b : RngBuffer (σ × Nat)) :
    forgetCount (l.foldl (refillStep G.counted) b) = l.foldl (refillStep G) (forgetCount b) := by
  induction l generalizing b with
  | nil => rfl
  | cons i l ih =>
    rw [List.foldl_cons, List.foldl_cons, ih]
    rfl

theorem foldl_copyStep_forgetCount (l : List Nat) (b : RngBuffer (σ × Nat)) :
    forgetCount (l.foldl copyStep b) = l.foldl copyStep (forgetCount b) := by
  induction l generalizing b with
  | nil => rfl
  | cons i l ih =>
    rw [List.foldl_cons, List.foldl_cons, ih]
    rfl

theorem nextSequence_eq_copyOut (G : RNG σ) (b : RngBuffer σ) :
    nextSequence G b = copyOut (refillIfExhausted G b) := rfl

theorem refillIfExhausted_forgetCount (G : RNG σ) (b : RngBuffer (σ × Nat)) :
    forgetCount (refillIfExhausted G.counted b) = refillIfExhausted G (forgetCount b) := by
  unfold refillIfExhausted
  by_cases h : b.currentIndex_ ≥ b.bufferSize_
  · have h' : (forgetCount b).currentIndex_ ≥ (forgetCount b).bufferSize_ := h
    rw [if_pos h, if_pos h']
    unfold refillBuffer
    have hfold := foldl_refillStep_forgetCount G (List.range b.bufferSize_) b
    show _ = ({ List.foldl (refillStep G) (forgetCount b) (List.range b.bufferSize_) with
      currentIndex_ := 0 } : RngBuffer σ)
    rw [← hfold]
    rfl
  · have h' : ¬ (forgetCount b).currentIndex_ ≥ (forgetCount b).bufferSize_ := h
    rw [if_neg h, if_neg h']

theorem copyOut_forgetCount (b : RngBuffer (σ × Nat)) :
    forgetCount (copyOut b).2 = (copyOut (forgetCount b)).2 := by
  have hfold := foldl_copyStep_forgetCount (List.range b.dimension_) b
  have key : ∀ (s : RngBuffer (σ × Nat)) (t : RngBuffer σ), forgetCount s = t →
      forgetCount
        { s with
          sequence_ := { s.sequence_ with weight := 1 }
          currentIndex_ := s.currentIndex_ + 1 } =
        { t with
          sequence_ := { t.sequence_ with weight := 1 }
          currentIndex_ := t.currentIndex_ + 1 } := by
    intro s t h
    subst h
    rfl
  exact key (List.foldl copyStep b (List.range b.dimension_))
    (List.foldl copyStep (forgetCount b) (List.range b.dimension_)) hfold

/-- Counting the calls on the source does not change the buffer: a call of
`nextSequence()` over `G.counted` returns the sample and, the counter apart, the
state that the call over `G` returns. -/
theorem nextSequence_forgetCount (G : RNG σ) (b : RngBuffer (σ × Nat)) :
    forgetCount (nextSequence G.counted b).2 = (nextSequence G (forgetCount b)).2 ∧
    (nextSequence G.counted b).1 = (nextSequence G (forgetCount b)).1 := by
  have hstate :
      forgetCount (nextSequence G.counted b).2 = (nextSequence G (forgetCount b)).2 := by
    rw [nextSequence_eq_copyOut, nextSequence_eq_copyOut, copyOut_forgetCount,
      refillIfExhausted_forgetCount]
  refine ⟨hstate, ?_⟩
  have h1 : (nextSequence G.counted b).1
      = (forgetCount (nextSequence G.counted b).2).sequence_ := rfl
  rw [h1, hstate]
  rfl

theorem construct_forgetCount (G : RNG σ) (rng : σ) (n : Nat) :
    forgetCount (construct G.counted (rng, n)) = construct G rng := by
  unfold construct refillBuffer
  rw [foldl_refillStep_forgetCount]
  rfl

theorem afterCalls_succ (G : RNG σ) (k : Nat) (b : RngBuffer σ) :
    afterCalls G (k + 1) b = (nextSequence G (afterCalls G k b)).2 := by
  unfold afterCalls
  rw [Function.iterate_succ_apply']

theorem construct_cursor (G : RNG σ) (rng : σ) :
    (construct G rng).bufferSize_ = 50 ∧ (construct G rng).currentIndex_ = 50 := by
  unfold construct refillBuffer
  exact ⟨(foldl_refillStep_frame G _ _).2.1, (foldl_refillStep_frame G _ _).2.2.1⟩

theorem afterCalls_cursor (G : RNG σ) (rng : σ) (k : Nat) :
    (afterCalls G k (construct G rng)).bufferSize_ = 50 ∧
    (afterCalls G k (construct G rng)).currentIndex_ =
      (if k = 0 then 50 else (k - 1) % 50 + 1) := by
  induction k with
  | zero => exact construct_cursor G rng
  | succ k ih =>
    obtain ⟨hB, hI⟩ := ih
    rw [afterCalls_succ, nextSequence_bufferSize, nextSequence_currentIndex, hB, hI]
    refine ⟨rfl, ?_⟩
    by_cases hk : k = 0
    · subst hk; simp
    · simp only [hk, if_false, Nat.add_sub_cancel, Nat.succ_ne_zero]
      split <;> omega

theorem afterCalls_count_succ (G : RNG σ) (rng : σ) (k : Nat) :
    (afterCalls G.counted (k + 1) (construct G.counted (rng, 0))).rng_.2 =
      (afterCalls G.counted k (construct G.counted (rng, 0))).rng_.2 +
        (if (k + 1) % 50 = 1 then 50 else 0) := by
  obtain ⟨hB, hI⟩ := afterCalls_cursor G.counted (rng, 0) k
  rw [afterCalls_succ, nextSequence_count, hB, hI]
  congr 1
  by_cases hk : k = 0
  · subst hk; simp
  · simp only [hk, if_false]
    split <;> split <;> omega

theorem afterCalls_count (G : RNG σ) (rng : σ) (k : Nat) :
    (afterCalls G.counted k (construct G.counted (rng, 0))).rng_.2 =
      50 + 50 * ((k + 49) / 50) := by
  induction k with
  | zero =>
    show (construct G.counted (rng, 0)).rng_.2 = _
    unfold construct
    rw [refillBuffer_count]
    simp
  | succ k ih =>
    rw [afterCalls_count_succ, ih]
    split <;> omega

end RngBuffer

/-! ## Refill frequency and read-only access to the last sample -/

namespace RngBuffer

variable {σ : Type}

/-- **C4**.  On a freshly constructed buffer over any source, the `(k+1)`-th call
of `nextSequence()` makes `50` calls on the source when `(k+1) mod 50 = 1` and
none otherwise; hence any `50` consecutive calls make `50` source calls in total,
all of them within exactly one call of the window. -/
theorem nextSequence_refill_frequency (G : RNG σ) (rng : σ) (k : Nat) :
    sourceCalls G rng (k + 1) =
      sourceCalls G rng k + (if (k + 1) % 50 = 1 then 50 else 0) ∧
    sourceCalls G rng (k + 50) = sourceCalls G rng k + 50 ∧
    ∃! j, k + 1 ≤ j ∧ j ≤ k + 50 ∧ sourceCalls G rng j ≠ sourceCalls G rng (j - 1) := by
  refine ⟨afterCalls_count_succ G rng k, ?_, ?_⟩
  · unfold sourceCalls
    rw [afterCalls_count, afterCalls_count]
    omega
  · have key : ∀ j, 1 ≤ j →
        (sourceCalls G rng j ≠ sourceCalls G rng (j - 1) ↔ j % 50 = 1) := by
      intro j hj
      unfold sourceCalls
      rw [afterCalls_count, afterCalls_count]
      omega
    refine ⟨k + 1 + (50 - k % 50) % 50, ⟨by omega, by omega, ?_⟩, ?_⟩
    · rw [key _ (by omega)]
      omega
    · rintro j ⟨h1, h2, h3⟩
      rw [key j (by omega)] at h3
      omega

/-- **C5**.  `lastSequence()` returns the stored last sample and leaves the whole
state of the buffer (source, cursor, storage, last sample) as it was; so after any
number of calls the state is the initial one and the returned sample is the same. -/
theorem lastSequence_read_only (b : RngBuffer σ) (k : Nat) :
    (lastSequence b).2 = b ∧
    (lastSequence b).1 = b.sequence_ ∧
    afterLastCalls k b = b ∧
    (lastSequence (afterLastCalls k b)).1 = (lastSequence b).1 := by
  have hfix : afterLastCalls k b = b := by
    unfold afterLastCalls
    induction k with
    | zero => rfl
    | succ k ih => rw [Function.iterate_succ_apply', ih]; rfl
  exact ⟨rfl, rfl, hfix, by rw [hfix]⟩

/-- **C16**.  In every state of the buffer, `lastSequence()` called right after
`nextSequence()` returns the sample that this `nextSequence()` returned: the same
values and the same weight. -/
theorem lastSequence_after_nextSequence (G : RNG σ) (b : RngBuffer σ) :
    (lastSequence (nextSequence G b).2).1 = (nextSequence G b).1 ∧
    (lastSequence (nextSequence G b).2).1.value = (nextSequence G b).1.value ∧
    (lastSequence (nextSequence G b).2).1.weight = (nextSequence G b).1.weight :=
  ⟨rfl, rfl, rfl⟩

theorem construct_sequence (G : RNG σ) (rng : σ) :
    (construct G rng).sequence_ =
      { value := List.replicate (G.dimension rng) 0, weight := 1 } := by
  unfold construct refillBuffer
  exact (foldl_refillStep_frame G _ _).2.2.2.1

theorem nextSequence_weight (G : RNG σ) (b : RngBuffer σ) :
    (nextSequence G b).1.weight = 1 := rfl

theorem reachable_weight (G : RNG σ) (rng : σ) (b : RngBuffer σ)
    (h : ReachableFrom G rng b) : b.sequence_.weight = 1 := by
  induction h with
  | fresh => rw [construct_sequence]
  | afterNext _ _ => rfl
  | afterLast _ ih => exact ih

/-! ### The block held by the storage -/

theorem stateAfter_succ (G : RNG σ) (rng : σ) (n : Nat) :
    G.stateAfter rng (n + 1) = (G.nextSequence (G.stateAfter rng n)).2 := by
  unfold RNG.stateAfter
  rw [Function.iterate_succ_apply']

theorem stdCopy_getD (src dst : List ℚ) (pos i : Nat) :
    (stdCopy src dst pos).getD i 0 =
      if pos ≤ i ∧ i < pos + src.length ∧ i < dst.length then src.getD (i - pos) 0
      else dst.getD i 0 := by
  rw [List.getD_eq_getElem?_getD, stdCopy_getElem?]
  split
  · rw [List.getD_eq_getElem?_getD]
  · rw [List.getD_eq_getElem?_getD]

/-- The loop of `refillBuffer()` run over the indices `0 .. m-1` from a state whose
source is `p` draws from `rng`: the source has advanced by `m` draws and slot `j`
of the storage holds draw `p + j`, for every `j < m`. -/
theorem foldl_refillStep_block (G : RNG σ) (rng : σ) (p : Nat) (b : RngBuffer σ)
    (hsize : ∀ n, (G.draw rng n).value.length = G.dimension rng)
    (hdim : b.dimension_ = G.dimension rng)
    (hlen : b.buffer_.length = 50 * G.dimension rng)
    (hrng : b.rng_ = G.stateAfter rng p) (m : Nat) (hm : m ≤ 50) :
    ((List.range m).foldl (refillStep G) b).rng_ = G.stateAfter rng (p + m) ∧
    ∀ j, j < m → ∀ i, i < G.dimension rng →
      ((List.range m).foldl (refillStep G) b).buffer_.getD (j * G.dimension rng + i) 0
        = (G.draw rng (p + j)).value.getD i 0 := by
  induction m with
  | zero =>
    refine ⟨hrng, ?_⟩
    intro j hj
    omega
  | succ m ih =>
    obtain ⟨hr, hb⟩ := ih (by omega)
    obtain ⟨fd, -, -, -, fl⟩ := foldl_refillStep_frame G (List.range m) b
    rw [List.range_succ, List.foldl_append]
    simp only [List.foldl_cons, List.foldl_nil]
    generalize (List.range m).foldl (refillStep G) b = r at hr hb fd fl
    have hdraw : (G.nextSequence r.rng_).1 = G.draw rng (p + m) := by
      rw [hr]; rfl
    have hmul : (m + 1) * G.dimension rng ≤ 50 * G.dimension rng :=
      Nat.mul_le_mul_right _ (by omega)
    rw [Nat.add_mul, Nat.one_mul] at hmul
    constructor
    · show (G.nextSequence r.rng_).2 = _
      rw [hr, ← Nat.add_assoc, stateAfter_succ]
    · intro j hj i hi
      show (stdCopy (G.nextSequence r.rng_).1.value r.buffer_ (m * r.dimension_)).getD _ 0 = _
      rw [hdraw, stdCopy_getD, hsize, fd, hdim, fl, hlen]
      by_cases hjm : j = m
      · subst hjm
        rw [if_pos (by omega), Nat.add_sub_cancel_left]
      · have hj' : (j + 1) * G.dimension rng ≤ m * G.dimension rng :=
          Nat.mul_le_mul_right _ (by omega)
        rw [Nat.add_mul, Nat.one_mul] at hj'
        rw [if_neg (by omega)]
        exact hb j (by omega) i hi

/-- The copy loop of `nextSequence()` run over the indices `0 .. m-1`: entry `i` of
the last sample is the entry `currentIndex_ * dimension_ + i` of the storage, for
every `i < m`. -/
theorem foldl_copyStep_values (b : RngBuffer σ) (m : Nat)
    (hm : m ≤ b.sequence_.value.length) :
    ∀ i, i < m →
      ((List.range m).foldl copyStep b).sequence_.value.getD i 0
        = b.buffer_.getD (b.currentIndex_ * b.dimension_ + i) 0 := by
  induction m with
  | zero =>
    intro i hi
    omega
  | succ m ih =>
    have hv := ih (by omega)
    obtain ⟨-, fd, -, fc, fb, -, fl⟩ := foldl_copyStep_frame (List.range m) b
    rw [List.range_succ, List.foldl_append]
    simp only [List.foldl_cons, List.foldl_nil]
    generalize (List.range m).foldl copyStep b = r at hv fd fc fb fl
    intro i hi
    show (r.sequence_.value.set m (r.buffer_.getD (r.currentIndex_ * r.dimension_ + m) 0)).getD
      i 0 = _
    by_cases him : i = m
    · subst him
      rw [getD_set_self _ _ _ (by omega), fb, fc, fd]
    · rw [getD_set_ne _ _ _ _ (by omega)]
      exact hv i (by omega)

theorem eq_of_getD_eq (l₁ l₂ : List ℚ) (n : Nat) (h₁ : l₁.length = n) (h₂ : l₂.length = n)
    (h : ∀ i, i < n → l₁.getD i 0 = l₂.getD i 0) : l₁ = l₂ := by
  apply List.ext_getElem?
  intro i
  by_cases hi : i < n
  · have := h i hi
    rw [List.getD_eq_getElem?_getD, List.getD_eq_getElem?_getD] at this
    rw [List.getElem?_eq_getElem (by omega), List.getElem?_eq_getElem (by omega)] at this ⊢
    exact congrArg some this
  · rw [List.getElem?_eq_none (by omega), List.getElem?_eq_none (by omega)]

/-- The sample returned by the second half of `nextSequence()` on a buffer that
holds the block starting at `base`, the cursor `c` being inside the block: the
values of draw `base + c`. -/
theorem copyOut_value (G : RNG σ) (rng : σ) (base : Nat) (b : RngBuffer σ)
    (hsize : ∀ n, (G.draw rng n).value.length = G.dimension rng)
    (hb : HoldsBlock G rng base b) (hc : b.currentIndex_ < 50) :
    (copyOut b).1.value = (G.draw rng (base + b.currentIndex_)).value := by
  obtain ⟨hd, -, -, hs, -, hblock⟩ := hb
  obtain ⟨-, -, -, -, -, -, fl⟩ := foldl_copyStep_frame (List.range b.dimension_) b
  have hv := foldl_copyStep_values b b.dimension_ (by rw [hs, hd])
  apply eq_of_getD_eq _ _ (G.dimension rng)
  · show ((List.range b.dimension_).foldl copyStep b).sequence_.value.length = _
    rw [fl, hs]
  · exact hsize _
  · intro i hi
    show ((List.range b.dimension_).foldl copyStep b).sequence_.value.getD i 0 = _
    rw [hv i (by omega), hd]
    exact hblock _ hc i hi

/-- The second half of `nextSequence()` keeps the block and advances the cursor. -/
theorem copyOut_holds (G : RNG σ) (rng : σ) (base : Nat) (b : RngBuffer σ)
    (hb : HoldsBlock G rng base b) :
    HoldsBlock G rng base (copyOut b).2 ∧
    (copyOut b).2.currentIndex_ = b.currentIndex_ + 1 := by
  obtain ⟨hd, hB, hl, hs, hr, hblock⟩ := hb
  obtain ⟨fr, fd, fB, fc, fb, -, fl⟩ := foldl_copyStep_frame (List.range b.dimension_) b
  refine ⟨⟨?_, ?_, ?_, ?_, ?_, ?_⟩, ?_⟩
  · show ((List.range b.dimension_).foldl copyStep b).dimension_ = _
    rw [fd, hd]
  · show ((List.range b.dimension_).foldl copyStep b).bufferSize_ = _
    rw [fB, hB]
  · show ((List.range b.dimension_).foldl copyStep b).buffer_.length = _
    rw [fb, hl]
  · show ((List.range b.dimension_).foldl copyStep b).sequence_.value.length = _
    rw [fl, hs]
  · show ((List.range b.dimension_).foldl copyStep b).rng_ = _
    rw [fr, hr]
  · intro j hj i hi
    show ((List.range b.dimension_).foldl copyStep b).buffer_.getD _ 0 = _
    rw [fb]
    exact hblock j hj i hi
  · show ((List.range b.dimension_).foldl copyStep b).currentIndex_ + 1 = _
    rw [fc]

/-- The first half of `nextSequence()` on a buffer that holds the block starting at
`base`, with cursor `c ≤ 50`: afterwards the buffer holds a block starting at some
`base'` and the cursor `c'` is inside it, with `base' + c' = base + c`. -/
theorem refillIfExhausted_holds (G : RNG σ) (rng : σ) (base : Nat) (b : RngBuffer σ)
    (hsize : ∀ n, (G.draw rng n).value.length = G.dimension rng)
    (hb : HoldsBlock G rng base b) (hc : b.currentIndex_ ≤ 50) :
    ∃ base', HoldsBlock G rng base' (refillIfExhausted G b) ∧
      (refillIfExhausted G b).currentIndex_ < 50 ∧
      base' + (refillIfExhausted G b).currentIndex_ = base + b.currentIndex_ := by
  obtain ⟨hd, hB, hl, hs, hr, hblock⟩ := hb
  unfold refillIfExhausted
  by_cases hex : b.currentIndex_ ≥ b.bufferSize_
  · rw [if_pos hex]
    rw [hB] at hex
    obtain ⟨fd, fB, -, fs, fl⟩ := foldl_refillStep_frame G (List.range 50) b
    obtain ⟨gr, gb⟩ := foldl_refillStep_block G rng (base + 50) b hsize hd hl hr 50
      (Nat.le_refl _)
    have hrange : List.range b.bufferSize_ = List.range 50 := by rw [hB]
    refine ⟨base + 50, ⟨?_, ?_, ?_, ?_, ?_, ?_⟩, ?_, ?_⟩
    · show ((List.range b.bufferSize_).foldl (refillStep G) b).dimension_ = _
      rw [hrange, fd, hd]
    · show ((List.range b.bufferSize_).foldl (refillStep G) b).bufferSize_ = _
      rw [hrange, fB, hB]
    · show ((List.range b.bufferSize_).foldl (refillStep G) b).buffer_.length = _
      rw [hrange, fl, hl]
    · show ((List.range b.bufferSize_).foldl (refillStep G) b).sequence_.value.length = _
      rw [hrange, fs, hs]
    · show ((List.range b.bufferSize_).foldl (refillStep G) b).rng_ = _
      rw [hrange, gr]
    · intro j hj i hi
      show ((List.range b.bufferSize_).foldl (refillStep G) b).buffer_.getD _ 0 = _
      rw [hrange]
      exact gb j hj i hi
    · show 0 < 50
      omega
    · show base + 50 + 0 = base + b.currentIndex_
      omega
  · rw [if_neg hex]
    rw [hB] at hex
    exact ⟨base, ⟨hd, hB, hl, hs, hr, hblock⟩, by omega, rfl⟩

theorem construct_holds (G : RNG σ) (rng : σ)
    (hsize : ∀ n, (G.draw rng n).value.length = G.dimension rng) :
    HoldsBlock G rng 0 (construct G rng) := by
  obtain ⟨hB, -⟩ := construct_cursor G rng
  unfold construct refillBuffer at hB ⊢
  obtain ⟨fd, -, -, fs, fl⟩ := foldl_refillStep_frame G (List.range 50)
    { rng_ := rng, dimension_ := G.dimension rng, bufferSize_ := 50, currentIndex_ := 50,
      buffer_ := List.replicate (50 * G.dimension rng) 0,
      sequence_ := { value := List.replicate (G.dimension rng) 0, weight := 1 } }
  obtain ⟨gr, gb⟩ := foldl_refillStep_block G rng 0
    { rng_ := rng, dimension_ := G.dimension rng, bufferSize_ := 50, currentIndex_ := 50,
      buffer_ := List.replicate (50 * G.dimension rng) 0,
      sequence_ := { value := List.replicate (G.dimension rng) 0, weight := 1 } }
    hsize rfl (List.length_replicate _ _) rfl 50 (Nat.le_refl _)
  refine ⟨fd, hB, ?_, ?_, ?_, ?_⟩
  · exact fl.trans (List.length_replicate _ _)
  · exact (congrArg (fun s => s.value.length) fs).trans (List.length_replicate _ _)
  · exact gr
  · intro j hj i hi
    have := gb j hj i hi
    rw [Nat.zero_add] at this
    rw [Nat.zero_add]
    exact this

/-- After `k` calls of `nextSequence()` on a fresh buffer, the storage holds a
block of the source and the number of the block's first draw plus the cursor is
`50 + k`. -/
theorem afterCalls_holds (G : RNG σ) (rng : σ)
    (hsize : ∀ n, (G.draw rng n).value.length = G.dimension rng) (k : Nat) :
    ∃ base, HoldsBlock G rng base (afterCalls G k (construct G rng)) ∧
      (afterCalls G k (construct G rng)).currentIndex_ ≤ 50 ∧
      base + (afterCalls G k (construct G rng)).currentIndex_ = 50 + k := by
  induction k with
  | zero =>
    refine ⟨0, construct_holds G rng hsize, ?_, ?_⟩
    · show (construct G rng).currentIndex_ ≤ 50
      rw [(construct_cursor G rng).2]
    · show 0 + (construct G rng).currentIndex_ = 50 + 0
      rw [(construct_cursor G rng).2]
  | succ k ih =>
    obtain ⟨base, hb, hc, hsum⟩ := ih
    obtain ⟨base', hb', hc', hsum'⟩ := refillIfExhausted_holds G rng base _ hsize hb hc
    obtain ⟨hb'', hc''⟩ := copyOut_holds G rng base' _ hb'
    rw [afterCalls_succ, nextSequence_eq_copyOut]
    refine ⟨base', hb'', ?_, ?_⟩
    · rw [hc'']; omega
    · rw [hc'']; omega

/-- **C17**.  The buffer is an order-preserving view of its source that skips the
first block: for a source started in the state `rng` whose draws all have
`dimension()` values, call number `k + 1` of `nextSequence()` on a freshly
constructed buffer returns the values of draw number `50 + k + 1` of the source
(`G.draw rng (50 + k)`).  The constructor leaves the source `50` draws from its
start and the first call `100` draws from it: the block drawn by the constructor
is overwritten without being returned. -/
theorem nextSequence_skips_first_block (G : RNG σ) (rng : σ)
    (hsize : ∀ n, (G.draw rng n).value.length = G.dimension rng) (k : Nat) :
    (nextSequence G (afterCalls G k (construct G rng))).1.value
      = (G.draw rng (50 + k)).value ∧
    (construct G rng).rng_ = G.stateAfter rng 50 ∧
    (afterCalls G 1 (construct G rng)).rng_ = G.stateAfter rng 100 := by
  refine ⟨?_, ?_, ?_⟩
  · obtain ⟨base, hb, hc, hsum⟩ := afterCalls_holds G rng hsize k
    obtain ⟨base', hb', hc', hsum'⟩ := refillIfExhausted_holds G rng base _ hsize hb hc
    rw [nextSequence_eq_copyOut, copyOut_value G rng base' _ hsize hb' hc', hsum', hsum]
  · exact (construct_holds G rng hsize).2.2.2.2.1
  · obtain ⟨base, hb, hc, hsum⟩ := afterCalls_holds G rng hsize 1
    obtain ⟨hB, hI⟩ := afterCalls_cursor G rng 1
    rw [hI] at hsum
    have hbase : base = 50 := by
      simp only [Nat.one_ne_zero, if_false] at hsum
      omega
    rw [hb.2.2.2.2.1, hbase]

set_option maxRecDepth 100000 in
/-- Witness of `nextSequence_skips_first_block`: the fourth call on a fresh buffer
over `rampSource`, whose draws are `[0, 1], [1, 2], ...`, returns `[53, 54]`. -/
theorem nextSequence_skips_first_block_witness :
    ((nextSequence rampSource (afterCalls rampSource 3 (construct rampSource 0))).1.value
      = (rampSource.draw 0 (50 + 3)).value ∧
    (construct rampSource 0).rng_ = rampSource.stateAfter 0 50 ∧
    (afterCalls rampSource 1 (construct rampSource 0)).rng_ = rampSource.stateAfter 0 100) ∧
    (rampSource.draw 0 (50 + 3)).value = [53, 54] :=
  ⟨nextSequence_skips_first_block rampSource 0 (fun _ => rfl) 3, by decide⟩

/-! ### The invariant of the reachable states -/

theorem nextSequence_sizes (G : RNG σ) (b : RngBuffer σ) :
    (nextSequence G b).2.dimension_ = b.dimension_ ∧
    (nextSequence G b).2.buffer_.length = b.buffer_.length := by
  unfold nextSequence
  simp only [(foldl_copyStep_frame _ _).2.1, (foldl_copyStep_frame _ _).2.2.2.2.1]
  split
  · exact ⟨(foldl_refillStep_frame G _ b).1, (foldl_refillStep_frame G _ b).2.2.2.2⟩
  · exact ⟨rfl, rfl⟩

theorem refillIfExhausted_sizes (G : RNG σ) (b : RngBuffer σ) :
    (refillIfExhausted G b).dimension_ = b.dimension_ ∧
    (refillIfExhausted G b).buffer_.length = b.buffer_.length ∧
    (refillIfExhausted G b).currentIndex_ =
      (if b.currentIndex_ ≥ b.bufferSize_ then 0 else b.currentIndex_) := by
  unfold refillIfExhausted
  split
  · exact ⟨(foldl_refillStep_frame G _ b).1, (foldl_refillStep_frame G _ b).2.2.2.2, rfl⟩
  · exact ⟨rfl, rfl, rfl⟩

theorem reachable_sizes (G : RNG σ) (rng : σ) (b : RngBuffer σ)
    (h : ReachableFrom G rng b) :
    b.dimension_ = G.dimension rng ∧ b.bufferSize_ = 50 ∧
    b.buffer_.length = 50 * b.dimension_ ∧ b.currentIndex_ ≤ 50 := by
  induction h with
  | fresh =>
    obtain ⟨hB, hI⟩ := construct_cursor G rng
    have hd : (construct G rng).dimension_ = G.dimension rng := by
      unfold construct refillBuffer
      exact (foldl_refillStep_frame G _ _).1
    have hl : (construct G rng).buffer_.length = 50 * G.dimension rng := by
      unfold construct refillBuffer
      exact (foldl_refillStep_frame G _ _).2.2.2.2.trans (List.length_replicate _ _)
    exact ⟨hd, hB, by rw [hl, hd], by rw [hI]⟩
  | @afterNext b _ ih =>
    obtain ⟨hd, hB, hl, hc⟩ := ih
    obtain ⟨sd, sl⟩ := nextSequence_sizes G b
    refine ⟨by rw [sd, hd], by rw [nextSequence_bufferSize, hB], by rw [sl, sd, hl], ?_⟩
    rw [nextSequence_currentIndex, hB]
    split <;> omega
  | afterLast _ ih => exact ih

/-- **C14**.  In every state reachable from the construction of the buffer by
calls of `nextSequence()` and `lastSequence()`, the samples of the source having
`D = dimension()` values: the buffer has dimension `D`, the storage has `50 * D`
entries and the cursor is at most `50`; every index `cursor * D + i` (`i < D`) read by `nextSequence()`, the
cursor being the one after the refill, is below `50 * D`; after the call the
cursor is between `1` and `50`; and every position written by a refill is within
the storage. -/
theorem reachable_invariant (G : RNG σ) (rng : σ) (b : RngBuffer σ)
    (hsize : ∀ s, (G.nextSequence s).1.value.length = G.dimension rng)
    (hreach : ReachableFrom G rng b) :
    b.dimension_ = G.dimension rng ∧
    b.buffer_.length = 50 * b.dimension_ ∧
    0 ≤ b.currentIndex_ ∧ b.currentIndex_ ≤ 50 ∧
    (∀ i, i < (refillIfExhausted G b).dimension_ →
      (refillIfExhausted G b).currentIndex_ * (refillIfExhausted G b).dimension_ + i
        < 50 * b.dimension_ ∧
      (refillIfExhausted G b).currentIndex_ * (refillIfExhausted G b).dimension_ + i
        < (refillIfExhausted G b).buffer_.length) ∧
    1 ≤ (nextSequence G b).2.currentIndex_ ∧ (nextSequence G b).2.currentIndex_ ≤ 50 ∧
    (∀ j, j < b.bufferSize_ → ∀ s,
      j * b.dimension_ + (G.nextSequence s).1.value.length ≤ b.buffer_.length) := by
  obtain ⟨hd, hB, hl, hc⟩ := reachable_sizes G rng b hreach
  obtain ⟨rd, rl, rc⟩ := refillIfExhausted_sizes G b
  have hcur : (refillIfExhausted G b).currentIndex_ < 50 := by
    rw [rc, hB]
    split <;> omega
  refine ⟨hd, hl, Nat.zero_le _, hc, ?_, ?_, ?_, ?_⟩
  · intro i hi
    rw [rd] at hi ⊢
    rw [rl, hl]
    have hmul : ((refillIfExhausted G b).currentIndex_ + 1) * b.dimension_
        ≤ 50 * b.dimension_ := Nat.mul_le_mul_right _ (by omega)
    rw [Nat.add_mul, Nat.one_mul] at hmul
    exact ⟨by omega, by omega⟩
  · rw [nextSequence_currentIndex]
    omega
  · rw [nextSequence_currentIndex, hB]
    split <;> omega
  · intro j hj s
    rw [hsize, hl, ← hd]
    rw [hB] at hj
    have hmul : (j + 1) * b.dimension_ ≤ 50 * b.dimension_ :=
      Nat.mul_le_mul_right _ (by omega)
    rw [Nat.add_mul, Nat.one_mul] at hmul
    exact hmul

/-- Witness of `reachable_invariant`: the buffer over `rampSource` after the calls
`nextSequence()`, `lastSequence()`, `nextSequence()`. -/
theorem reachable_invariant_witness :
    ∃ b : RngBuffer Nat, ReachableFrom rampSource 0 b ∧
      (b.dimension_ = rampSource.dimension 0 ∧
      b.buffer_.length = 50 * b.dimension_ ∧
      0 ≤ b.currentIndex_ ∧ b.currentIndex_ ≤ 50 ∧
      (∀ i, i < (refillIfExhausted rampSource b).dimension_ →
        (refillIfExhausted rampSource b).currentIndex_
            * (refillIfExhausted rampSource b).dimension_ + i < 50 * b.dimension_ ∧
        (refillIfExhausted rampSource b).currentIndex_
            * (refillIfExhausted rampSource b).dimension_ + i
          < (refillIfExhausted rampSource b).buffer_.length) ∧
      1 ≤ (nextSequence rampSource b).2.currentIndex_ ∧
      (nextSequence rampSource b).2.currentIndex_ ≤ 50 ∧
      (∀ j, j < b.bufferSize_ → ∀ s,
        j * b.dimension_ + (rampSource.nextSequence s).1.value.length ≤ b.buffer_.length)) :=
  ⟨_, ReachableFrom.afterNext (ReachableFrom.afterLast
      (ReachableFrom.afterNext ReachableFrom.fresh)),
    reachable_invariant rampSource 0 _ (fun _ => rfl)
      (ReachableFrom.afterNext (ReachableFrom.afterLast
        (ReachableFrom.afterNext ReachableFrom.fresh)))⟩

end RngBuffer

/-! ## The evolution recurrence of `PathGenerator` -/

namespace PathGenerator

variable {σ : Type}

theorem foldl_evolveStep (process : StochasticProcess1D) (timeGrid : TimeGrid)
    (temp : List ℚ) (anti : Bool) (values : List ℚ) (m : Nat)
    (hm : m + 1 ≤ values.length) :
    ((List.range' 1 m).foldl (evolveStep process timeGrid temp anti) values).length
      = values.length ∧
    ((List.range' 1 m).foldl (evolveStep process timeGrid temp anti) values).getD 0 0
      = values.getD 0 0 ∧
    ∀ i, 1 ≤ i → i ≤ m →
      ((List.range' 1 m).foldl (evolveStep process timeGrid temp anti) values).getD i 0 =
        process.evolve (timeGrid.time (i - 1))
          (((List.range' 1 m).foldl (evolveStep process timeGrid temp anti) values).getD
            (i - 1) 0)
          (timeGrid.dt (i - 1))
          (if anti then - temp.getD (i - 1) 0 else temp.getD (i - 1) 0) := by
  induction m with
  | zero =>
    refine ⟨rfl, rfl, ?_⟩
    intro i h1 h2
    omega
  | succ m ih =>
    obtain ⟨hlen, h0, hrec⟩ := ih (by omega)
    rw [List.range'_concat, List.foldl_append]
    simp only [List.foldl_cons, List.foldl_nil, Nat.one_mul]
    generalize (List.range' 1 m).foldl (evolveStep process timeGrid temp anti) values = r
      at hlen h0 hrec
    unfold evolveStep
    refine ⟨by rw [List.length_set, hlen], ?_, ?_⟩
    · rw [getD_set_ne _ _ _ _ (by omega), h0]
    · intro i h1 h2
      by_cases hi : i = 1 + m
      · subst hi
        rw [getD_set_self _ _ _ (by omega), getD_set_ne _ _ _ _ (by omega)]
      · rw [getD_set_ne _ _ _ _ (by omega), getD_set_ne _ _ _ _ (by omega)]
        exact hrec i h1 (by omega)

/-- The evolution loop on a vector of `d + 1` values: the length and the first
value are kept, and every later value is evolved from its predecessor. -/
theorem evolveLoop_recurrence (process : StochasticProcess1D) (timeGrid : TimeGrid)
    (temp : List ℚ) (anti : Bool) (values : List ℚ) (d : Nat)
    (hlen : values.length = d + 1) :
    (evolveLoop process timeGrid temp anti values).length = d + 1 ∧
    (evolveLoop process timeGrid temp anti values).getD 0 0 = values.getD 0 0 ∧
    ∀ i, 1 ≤ i → i ≤ d →
      (evolveLoop process timeGrid temp anti values).getD i 0 =
        process.evolve (timeGrid.time (i - 1))
          ((evolveLoop process timeGrid temp anti values).getD (i - 1) 0)
          (timeGrid.dt (i - 1))
          (if anti then - temp.getD (i - 1) 0 else temp.getD (i - 1) 0) := by
  unfold evolveLoop
  rw [hlen, Nat.add_sub_cancel]
  have h := foldl_evolveStep process timeGrid temp anti values d (by omega)
  rw [hlen] at h
  exact h

/-- Closed form of `next(bool)` for a generator with a non-null process, a grid of
`dimension_ + 1` points and a drawn vector whose increments fill `temp`. -/
theorem nextImpl_eq (G : RNG σ) (self : PathGenerator σ) (anti : Bool)
    (process : StochasticProcess1D) (hprocess : self.process_ = some process)
    (hdim : (incrementsOf self
      (if anti then self.generator_.lastSequence else self.generator_.nextSequence G).1.value).length
        = self.dimension_) :
    nextImpl G self anti = Except.ok
      ({ value :=
          { timeGrid_ := self.timeGrid_
            values_ := evolveLoop process self.timeGrid_
              (incrementsOf self
                (if anti then self.generator_.lastSequence
                  else self.generator_.nextSequence G).1.value)
              anti ((List.replicate self.timeGrid_.size 0).set 0 process.x0) }
         weight :=
          (if anti then self.generator_.lastSequence
            else self.generator_.nextSequence G).1.weight },
        { self with
          generator_ :=
            (if anti then self.generator_.lastSequence
              else self.generator_.nextSequence G).2 }) := by
  unfold nextImpl
  simp only [hprocess, Path.ofGrid]
  unfold incrementsOf at hdim
  cases hb : self.brownianBridge_ with
  | false =>
    rw [hb] at hdim
    simp only [Bool.false_eq_true, if_false] at hdim ⊢
    rw [stdCopy_zero_of_length_eq _ _ (by rw [hdim, List.length_replicate])]
    simp only [incrementsOf, hb, Bool.false_eq_true, if_false]
  | true =>
    rw [hb] at hdim
    simp only [if_true] at hdim ⊢
    rw [stdCopy_zero_of_length_eq _ _ (by rw [hdim, List.length_replicate])]
    simp only [incrementsOf, hb, if_true]

/-- **C2**.  `next()` without the bridge, on a generator of dimension `D` with a
non-null process and a grid of `D + 1` points, whose buffer draws the vector `v`
of `D` values: the call returns a path of length `D + 1` with `value[0] = x0` and
`value[i] = evolve (timeGrid[i-1], value[i-1], timeGrid.dt(i-1), v[i-1])` for
every `i` in `1..D`, the loop being run sequentially. -/
theorem next_recurrence (G : RNG σ) (self : PathGenerator σ)
    (process : StochasticProcess1D) (v : List ℚ)
    (hprocess : self.process_ = some process)
    (hbridge : self.brownianBridge_ = false)
    (hgrid : self.timeGrid_.size = self.dimension_ + 1)
    (hdraw : (self.generator_.nextSequence G).1.value = v)
    (hdim : v.length = self.dimension_) :
    ∃ path generator, next G self = Except.ok (path, generator) ∧
      path.value.length = self.dimension_ + 1 ∧
      path.value.values_.getD 0 0 = process.x0 ∧
      ∀ i, 1 ≤ i → i ≤ self.dimension_ →
        path.value.values_.getD i 0 =
          process.evolve (self.timeGrid_.time (i - 1)) (path.value.values_.getD (i - 1) 0)
            (self.timeGrid_.dt (i - 1)) (v.getD (i - 1) 0) := by
  have hinc : incrementsOf self
      (if false = true then self.generator_.lastSequence
        else self.generator_.nextSequence G).1.value = v := by
    simp only [incrementsOf, hbridge, Bool.false_eq_true, if_false, hdraw]
  have hnext := nextImpl_eq G self false process hprocess (by rw [hinc, hdim])
  rw [hinc] at hnext
  have hvals : ((List.replicate self.timeGrid_.size (0 : ℚ)).set 0 process.x0).length
      = self.dimension_ + 1 := by
    rw [List.length_set, List.length_replicate, hgrid]
  obtain ⟨h1, h2, h3⟩ :=
    evolveLoop_recurrence process self.timeGrid_ v false _ self.dimension_ hvals
  refine ⟨_, _, hnext, h1, ?_, ?_⟩
  · show (evolveLoop process self.timeGrid_ v false _).getD 0 0 = process.x0
    rw [h2]
    exact getD_set_self _ _ _ (by rw [List.length_replicate, hgrid]; omega)
  · intro i hi1 hi2
    have h := h3 i hi1 hi2
    simp only [Bool.false_eq_true, if_false] at h
    exact h

set_option maxRecDepth 100000 in
/-- Witness of `next_recurrence`: the generator `sampleGenerator false`, whose
fresh buffer draws `[50, 51]` (the first block of `rampSource` is discarded). -/
theorem next_recurrence_witness :
    ∃ path generator, next rampSource (sampleGenerator false) = Except.ok (path, generator) ∧
      path.value.length = (sampleGenerator false).dimension_ + 1 ∧
      path.value.values_.getD 0 0 = sampleProcess.x0 ∧
      ∀ i, 1 ≤ i → i ≤ (sampleGenerator false).dimension_ →
        path.value.values_.getD i 0 =
          sampleProcess.evolve ((sampleGenerator false).timeGrid_.time (i - 1))
            (path.value.values_.getD (i - 1) 0)
            ((sampleGenerator false).timeGrid_.dt (i - 1)) (([50, 51] : List ℚ).getD (i - 1) 0) :=
  next_recurrence rampSource (sampleGenerator false) sampleProcess [50, 51] rfl rfl rfl
    (by decide) rfl

/-- After a successful `next()`, whose buffer drew `v`, `antithetic()` on the
successor state returns the path evolved with the negated increments of `v`. -/
theorem antithetic_after_next_increments (G : RNG σ) (self : PathGenerator σ)
    (process : StochasticProcess1D) (v : List ℚ)
    (hprocess : self.process_ = some process)
    (hgrid : self.timeGrid_.size = self.dimension_ + 1)
    (hdraw : (self.generator_.nextSequence G).1.value = v)
    (hdim : (incrementsOf self v).length = self.dimension_) :
    ∃ p1 g1 p2 g2, next G self = Except.ok (p1, g1) ∧
      antithetic G g1 = Except.ok (p2, g2) ∧
      p2.value.length = self.dimension_ + 1 ∧
      p2.value.values_.getD 0 0 = process.x0 ∧
      ∀ i, 1 ≤ i → i ≤ self.dimension_ →
        p2.value.values_.getD i 0 =
          process.evolve (self.timeGrid_.time (i - 1)) (p2.value.values_.getD (i - 1) 0)
            (self.timeGrid_.dt (i - 1)) (- (incrementsOf self v).getD (i - 1) 0) := by
  have hnext : next G self = Except.ok
      ({ value :=
          { timeGrid_ := self.timeGrid_
            values_ := evolveLoop process self.timeGrid_ (incrementsOf self v) false
              ((List.replicate self.timeGrid_.size 0).set 0 process.x0) }
         weight := (self.generator_.nextSequence G).1.weight },
        { self with generator_ := (self.generator_.nextSequence G).2 }) := by
    have h := nextImpl_eq G self false process hprocess
      (by simp only [Bool.false_eq_true, if_false, hdraw, hdim])
    rw [← hdraw]
    exact h
  have hanti : antithetic G { self with generator_ := (self.generator_.nextSequence G).2 } =
      Except.ok
      ({ value :=
          { timeGrid_ := self.timeGrid_
            values_ := evolveLoop process self.timeGrid_ (incrementsOf self v) true
              ((List.replicate self.timeGrid_.size 0).set 0 process.x0) }
         weight := (self.generator_.nextSequence G).1.weight },
        { self with generator_ := (self.generator_.nextSequence G).2 }) := by
    have h := nextImpl_eq G { self with generator_ := (self.generator_.nextSequence G).2 }
      true process hprocess
      (by
        show (incrementsOf self (self.generator_.nextSequence G).1.value).length
          = self.dimension_
        rw [hdraw, hdim])
    rw [← hdraw]
    exact h
  have hvals : ((List.replicate self.timeGrid_.size (0 : ℚ)).set 0 process.x0).length
      = self.dimension_ + 1 := by
    rw [List.length_set, List.length_replicate, hgrid]
  obtain ⟨h1, h2, h3⟩ :=
    evolveLoop_recurrence process self.timeGrid_ (incrementsOf self v) true _
      self.dimension_ hvals
  refine ⟨_, _, _, _, hnext, hanti, h1, ?_, ?_⟩
  · show (evolveLoop process self.timeGrid_ (incrementsOf self v) true _).getD 0 0
      = process.x0
    rw [h2]
    exact getD_set_self _ _ _ (by rw [List.length_replicate, hgrid]; omega)
  · intro i hi1 hi2
    have h := h3 i hi1 hi2
    simp only [if_true] at h
    exact h

/-- **C3**.  `antithetic()` called right after `next()` re-uses the vector `v`
drawn by that `next()` with every component negated: without the bridge the
returned path has `value[0] = x0` and
`value[i] = evolve (timeGrid[i-1], value[i-1], timeGrid.dt(i-1), -v[i-1])` for `i`
in `1..D`; with the bridge the same holds with `-transform(v)[i-1]`. -/
theorem antithetic_after_next (G : RNG σ) (self : PathGenerator σ)
    (process : StochasticProcess1D) (v : List ℚ)
    (hprocess : self.process_ = some process)
    (hgrid : self.timeGrid_.size = self.dimension_ + 1)
    (hdraw : (self.generator_.nextSequence G).1.value = v) :
    (self.brownianBridge_ = false → v.length = self.dimension_ →
      ∃ p1 g1 p2 g2, next G self = Except.ok (p1, g1) ∧
        antithetic G g1 = Except.ok (p2, g2) ∧
        p2.value.length = self.dimension_ + 1 ∧
        p2.value.values_.getD 0 0 = process.x0 ∧
        ∀ i, 1 ≤ i → i ≤ self.dimension_ →
          p2.value.values_.getD i 0 =
            process.evolve (self.timeGrid_.time (i - 1)) (p2.value.values_.getD (i - 1) 0)
              (self.timeGrid_.dt (i - 1)) (- v.getD (i - 1) 0)) ∧
    (self.brownianBridge_ = true → (self.bb_.transform v).length = self.dimension_ →
      ∃ p1 g1 p2 g2, next G self = Except.ok (p1, g1) ∧
        antithetic G g1 = Except.ok (p2, g2) ∧
        p2.value.length = self.dimension_ + 1 ∧
        p2.value.values_.getD 0 0 = process.x0 ∧
        ∀ i, 1 ≤ i → i ≤ self.dimension_ →
          p2.value.values_.getD i 0 =
            process.evolve (self.timeGrid_.time (i - 1)) (p2.value.values_.getD (i - 1) 0)
              (self.timeGrid_.dt (i - 1)) (- (self.bb_.transform v).getD (i - 1) 0)) := by
  constructor
  · intro hb hdim
    have hinc : incrementsOf self v = v := by
      simp only [incrementsOf, hb, Bool.false_eq_true, if_false]
    have h := antithetic_after_next_increments G self process v hprocess hgrid hdraw
      (by rw [hinc, hdim])
    rw [hinc] at h
    exact h
  · intro hb hdim
    have hinc : incrementsOf self v = self.bb_.transform v := by
      simp only [incrementsOf, hb, if_true]
    have h := antithetic_after_next_increments G self process v hprocess hgrid hdraw
      (by rw [hinc, hdim])
    rw [hinc] at h
    exact h

set_option maxRecDepth 100000 in
/-- Witness of `antithetic_after_next`: the generators `sampleGenerator false` and
`sampleGenerator true`, whose fresh buffers draw `[50, 51]`; the bridge of the
latter turns it into `[51, 50]`. -/
theorem antithetic_after_next_witness :
    (∃ p1 g1 p2 g2, next rampSource (sampleGenerator false) = Except.ok (p1, g1) ∧
        antithetic rampSource g1 = Except.ok (p2, g2) ∧
        p2.value.length = (sampleGenerator false).dimension_ + 1 ∧
        p2.value.values_.getD 0 0 = sampleProcess.x0 ∧
        ∀ i, 1 ≤ i → i ≤ (sampleGenerator false).dimension_ →
          p2.value.values_.getD i 0 =
            sampleProcess.evolve ((sampleGenerator false).timeGrid_.time (i - 1))
              (p2.value.values_.getD (i - 1) 0)
              ((sampleGenerator false).timeGrid_.dt (i - 1))
              (- ([50, 51] : List ℚ).getD (i - 1) 0)) ∧
    (∃ p1 g1 p2 g2, next rampSource (sampleGenerator true) = Except.ok (p1, g1) ∧
        antithetic rampSource g1 = Except.ok (p2, g2) ∧
        p2.value.length = (sampleGenerator true).dimension_ + 1 ∧
        p2.value.values_.getD 0 0 = sampleProcess.x0 ∧
        ∀ i, 1 ≤ i → i ≤ (sampleGenerator true).dimension_ →
          p2.value.values_.getD i 0 =
            sampleProcess.evolve ((sampleGenerator true).timeGrid_.time (i - 1))
              (p2.value.values_.getD (i - 1) 0)
              ((sampleGenerator true).timeGrid_.dt (i - 1))
              (- ((sampleGenerator true).bb_.transform [50, 51]).getD (i - 1) 0)) :=
  ⟨(antithetic_after_next rampSource (sampleGenerator false) sampleProcess [50, 51]
      rfl rfl (by decide)).1 rfl rfl,
    (antithetic_after_next rampSource (sampleGenerator true) sampleProcess [50, 51]
      rfl rfl (by decide)).2 rfl rfl⟩

/-! ### The checks of the two constructors -/

theorem constructGrid_eq_ok (G : RNG σ) (bridgeOf : TimeGrid → BrownianBridge)
    (process : Option StochasticProcess) (timeGrid : TimeGrid) (generator : σ)
    (brownianBridge : Bool) :
    constructGrid G bridgeOf process timeGrid generator brownianBridge =
      Except.ok
        { brownianBridge_ := brownianBridge
          dimension_ := sizeSub timeGrid.size 1
          timeGrid_ := timeGrid
          process_ := dynamicPointerCast1D process
          generator_ := RngBuffer.construct G generator
          bb_ := bridgeOf timeGrid } := by
  simp only [constructGrid, not_true_eq_false, if_false]

theorem constructLength_eq (G : RNG σ) (gridOf : ℚ → Nat → TimeGrid)
    (bridgeOf : TimeGrid → BrownianBridge) (process : Option StochasticProcess)
    (length : ℚ) (timeSteps : Nat) (generator : σ) (brownianBridge : Bool) :
    constructLength G gridOf bridgeOf process length timeSteps generator brownianBridge =
      if (dynamicPointerCast1D process).isNone then Except.error Failure.processNull
      else if timeSteps = 0 then Except.error Failure.timeStepsNotPositive
      else Except.ok
        { brownianBridge_ := brownianBridge
          dimension_ := timeSteps
          timeGrid_ := gridOf length timeSteps
          process_ := dynamicPointerCast1D process
          generator_ := RngBuffer.construct G generator
          bb_ := bridgeOf (gridOf length timeSteps) } := by
  unfold constructLength
  by_cases hp : (dynamicPointerCast1D process).isNone = true
  · simp only [hp, if_true]
  · by_cases ht : timeSteps = 0
    · simp [hp, ht]
    · have ht' : timeSteps > 0 := Nat.pos_of_ne_zero ht
      simp [hp, ht, ht']

theorem construct_dimension (G : RNG σ) (rng : σ) :
    (RngBuffer.construct G rng).dimension = G.dimension rng := by
  unfold RngBuffer.dimension RngBuffer.construct RngBuffer.refillBuffer
  exact (RngBuffer.foldl_refillStep_frame G _ _).1

theorem evolveLoop_length (process : StochasticProcess1D) (timeGrid : TimeGrid)
    (temp : List ℚ) (anti : Bool) (values : List ℚ) :
    (evolveLoop process timeGrid temp anti values).length = values.length := by
  unfold evolveLoop
  generalize List.range' 1 (values.length - 1) = l
  induction l generalizing values with
  | nil => rfl
  | cons i l ih =>
    rw [List.foldl_cons, ih]
    unfold evolveStep
    rw [List.length_set]

/-- On a generator with a non-null process `next(bool)` returns a path that has
as many values as the grid has points, whatever the length of the drawn vector. -/
theorem nextImpl_length (G : RNG σ) (self : PathGenerator σ) (anti : Bool)
    (process : StochasticProcess1D) (hprocess : self.process_ = some process) :
    ∃ path generator, nextImpl G self anti = Except.ok (path, generator) ∧
      path.value.length = self.timeGrid_.size := by
  unfold nextImpl
  simp only [hprocess]
  refine ⟨_, _, rfl, ?_⟩
  show (evolveLoop process self.timeGrid_ _ anti _).length = _
  rw [evolveLoop_length, List.length_set]
  unfold Path.ofGrid
  rw [List.length_replicate]

/-- **C8** (violated by the code).  A source of dimension `3` is accepted by both
constructors for a grid of `5` steps: the generator is built with
`dimension_ = 5` over a buffer of dimension `3`, `dimension_` being compared with
the value it was initialised from; `next()` on it returns a path of `6` values. -/
theorem construct_accepts_mismatched_generator :
    tripleSource.dimension 0 = 3 ∧
    (∃ pg, constructLength tripleSource uniformGrid reversingBridgeOf
        (some (StochasticProcess.oneDimensional sampleProcess)) 1 5 0 false = Except.ok pg ∧
      pg.dimension_ = 5 ∧ pg.generator_.dimension = 3) ∧
    (∃ pg, constructGrid tripleSource reversingBridgeOf
        (some (StochasticProcess.oneDimensional sampleProcess)) sixPointGrid 0 false
          = Except.ok pg ∧
      pg.dimension_ = 5 ∧ pg.generator_.dimension = 3 ∧
      ∃ path generator, next tripleSource pg = Except.ok (path, generator) ∧
        path.value.length = 6) := by
  have hlength := constructLength_eq tripleSource uniformGrid reversingBridgeOf
    (some (StochasticProcess.oneDimensional sampleProcess)) 1 5 0 false
  rw [if_neg (by decide), if_neg (by decide)] at hlength
  exact ⟨rfl, ⟨_, hlength, rfl, construct_dimension tripleSource 0⟩,
    ⟨_, constructGrid_eq_ok _ _ _ _ _ _, by decide, construct_dimension tripleSource 0,
      nextImpl_length tripleSource _ false sampleProcess rfl⟩⟩

/-- **C9** (violated by the code).  For a process that is not a 1-D process the
cast yields null; the length + stepCount constructor then fails with "process
cannot be null", but the explicit-grid constructor succeeds and returns a
generator whose `process_` is null, on which `next()` dereferences the null
pointer. -/
theorem constructGrid_accepts_null_process :
    dynamicPointerCast1D (some StochasticProcess.multiDimensional) = none ∧
    constructLength rampSource uniformGrid reversingBridgeOf
      (some StochasticProcess.multiDimensional) 2 2 0 false
        = Except.error Failure.processNull ∧
    (∃ pg, constructGrid rampSource reversingBridgeOf
        (some StochasticProcess.multiDimensional) threePointGrid 0 false = Except.ok pg ∧
      pg.process_ = none ∧
      next rampSource pg = Except.error Failure.nullDereference) := by
  have hlength := constructLength_eq rampSource uniformGrid reversingBridgeOf
    (some StochasticProcess.multiDimensional) 2 2 0 false
  rw [if_pos (by decide)] at hlength
  exact ⟨rfl, hlength, ⟨_, constructGrid_eq_ok _ _ _ _ _ _, rfl, rfl⟩⟩

/-- **C10** (violated by the code).  With `timeSteps = 0` the length + stepCount
constructor fails with "timeSteps must be positive", but the explicit-grid
constructor accepts a grid with a single point, for which the resolved step
count `timeGrid.size() - 1` is `0`, and returns a generator of dimension `0`. -/
theorem constructGrid_accepts_zero_steps :
    sizeSub singlePointGrid.size 1 = 0 ∧
    constructLength emptySource uniformGrid reversingBridgeOf
      (some (StochasticProcess.oneDimensional sampleProcess)) 1 0 () false
        = Except.error Failure.timeStepsNotPositive ∧
    (∃ pg, constructGrid emptySource reversingBridgeOf
        (some (StochasticProcess.oneDimensional sampleProcess)) singlePointGrid () false
          = Except.ok pg ∧
      pg.dimension_ = 0 ∧ pg.timeGrid_.size = 1) := by
  have hlength := constructLength_eq emptySource uniformGrid reversingBridgeOf
    (some (StochasticProcess.oneDimensional sampleProcess)) 1 0 () false
  rw [if_neg (by decide), if_pos rfl] at hlength
  exact ⟨by decide, hlength, ⟨_, constructGrid_eq_ok _ _ _ _ _ _, by decide, rfl⟩⟩

/-! ### Antithetic calls, weights and the fresh generator -/

/-- On a generator with a non-null process `next(bool)` returns, with the weight of
the sample it took from the buffer and with the buffer left as that access left
it. -/
theorem nextImpl_weight_state (G : RNG σ) (self : PathGenerator σ) (anti : Bool)
    (process : StochasticProcess1D) (hprocess : self.process_ = some process) :
    ∃ path, nextImpl G self anti = Except.ok
        (path, { self with
          generator_ := (if anti then self.generator_.lastSequence
            else self.generator_.nextSequence G).2 }) ∧
      path.weight = (if anti then self.generator_.lastSequence
        else self.generator_.nextSequence G).1.weight := by
  unfold nextImpl
  simp only [hprocess]
  exact ⟨_, rfl, rfl⟩

theorem antithetic_state (G : RNG σ) (self : PathGenerator σ)
    (process : StochasticProcess1D) (hprocess : self.process_ = some process) :
    ∃ path, antithetic G self = Except.ok (path, self) := by
  obtain ⟨path, h, -⟩ := nextImpl_weight_state G self true process hprocess
  exact ⟨path, h⟩

theorem afterAntithetics_eq (G : RNG σ) (self : PathGenerator σ)
    (process : StochasticProcess1D) (hprocess : self.process_ = some process) (k : Nat) :
    afterAntithetics G k self = Except.ok self := by
  induction k with
  | zero => rfl
  | succ k ih =>
    obtain ⟨path, h⟩ := antithetic_state G self process hprocess
    unfold afterAntithetics
    rw [h]
    exact ih

/-- **C12**.  `antithetic()` consumes no randomness: on a generator with a non-null
process it returns and leaves the generator, hence the buffer (cursor, storage,
last sample) and the source, as they were; so after any number `k` of calls the
state is the initial one and `next()` returns what it would have returned without
them. -/
theorem antithetic_consumes_no_randomness (G : RNG σ) (self : PathGenerator σ)
    (process : StochasticProcess1D) (hprocess : self.process_ = some process) (k : Nat) :
    (∃ path generator, antithetic G self = Except.ok (path, generator) ∧
      generator = self ∧ generator.generator_ = self.generator_) ∧
    (∃ generator, afterAntithetics G k self = Except.ok generator ∧
      generator.generator_ = self.generator_ ∧
      next G generator = next G self) := by
  obtain ⟨path, h⟩ := antithetic_state G self process hprocess
  exact ⟨⟨path, self, h, rfl, rfl⟩,
    ⟨self, afterAntithetics_eq G self process hprocess k, rfl, rfl⟩⟩

/-- Witness of `antithetic_consumes_no_randomness`: three calls on
`sampleGenerator true`. -/
theorem antithetic_consumes_no_randomness_witness :
    (∃ path generator,
      antithetic rampSource (sampleGenerator true) = Except.ok (path, generator) ∧
      generator = sampleGenerator true ∧
      generator.generator_ = (sampleGenerator true).generator_) ∧
    (∃ generator, afterAntithetics rampSource 3 (sampleGenerator true) = Except.ok generator ∧
      generator.generator_ = (sampleGenerator true).generator_ ∧
      next rampSource generator = next rampSource (sampleGenerator true)) :=
  antithetic_consumes_no_randomness rampSource (sampleGenerator true) sampleProcess rfl 3

/-- **C13**.  Weights are always `1`: whatever weights the source attaches to its
samples, the sample returned by `nextSequence()` has weight `1` and, in every state
reachable from the construction of the buffer, so has the sample returned by
`lastSequence()`; hence on a generator with such a buffer (and a non-null process)
`next()` and `antithetic()` return paths of weight `1`. -/
theorem weights_are_one (G : RNG σ) (rng : σ) (self : PathGenerator σ)
    (process : StochasticProcess1D) (hprocess : self.process_ = some process)
    (hreach : RngBuffer.ReachableFrom G rng self.generator_) :
    (self.generator_.nextSequence G).1.weight = 1 ∧
    (self.generator_.lastSequence).1.weight = 1 ∧
    (∃ path generator, next G self = Except.ok (path, generator) ∧ path.weight = 1) ∧
    (∃ path generator, antithetic G self = Except.ok (path, generator) ∧
      path.weight = 1) := by
  have hlast : (self.generator_.lastSequence).1.weight = 1 :=
    RngBuffer.reachable_weight G rng _ hreach
  obtain ⟨p1, h1, w1⟩ := nextImpl_weight_state G self false process hprocess
  obtain ⟨p2, h2, w2⟩ := nextImpl_weight_state G self true process hprocess
  refine ⟨rfl, hlast, ⟨p1, _, h1, ?_⟩, ⟨p2, _, h2, ?_⟩⟩
  · rw [w1]; rfl
  · rw [w2]; exact hlast

/-- Witness of `weights_are_one`: the generator `weightedGenerator`, whose source
attaches the weight `7` to every sample. -/
theorem weights_are_one_witness :
    (weightedGenerator.generator_.nextSequence weightedSource).1.weight = 1 ∧
    (weightedGenerator.generator_.lastSequence).1.weight = 1 ∧
    (∃ path generator, next weightedSource weightedGenerator = Except.ok (path, generator) ∧
      path.weight = 1) ∧
    (∃ path generator,
      antithetic weightedSource weightedGenerator = Except.ok (path, generator) ∧
      path.weight = 1) :=
  weights_are_one weightedSource 0 weightedGenerator sampleProcess rfl
    RngBuffer.ReachableFrom.fresh

theorem getD_replicate_zero (n i : Nat) : (List.replicate n (0 : ℚ)).getD i 0 = 0 := by
  rw [List.getD_eq_getElem?_getD, List.getElem?_replicate]
  split <;> rfl

/-- **C15**.  `antithetic()` before any `next()`: on a generator with a freshly
constructed buffer over a source of dimension `D = dimension_` (non-null process,
grid of `D + 1` points, no bridge), `lastSequence()` is the zero vector of length
`D` with weight `1`, and `antithetic()` returns the path with `value[0] = x0` and
`value[i] = evolve (timeGrid[i-1], value[i-1], timeGrid.dt(i-1), 0)` for `i` in
`1..D`. -/
theorem antithetic_before_next (G : RNG σ) (rng : σ) (self : PathGenerator σ)
    (process : StochasticProcess1D)
    (hprocess : self.process_ = some process)
    (hbridge : self.brownianBridge_ = false)
    (hgrid : self.timeGrid_.size = self.dimension_ + 1)
    (hfresh : self.generator_ = RngBuffer.construct G rng)
    (hdim : G.dimension rng = self.dimension_) :
    (self.generator_.lastSequence).1 =
      { value := List.replicate self.dimension_ 0, weight := 1 } ∧
    ∃ path generator, antithetic G self = Except.ok (path, generator) ∧
      path.value.length = self.dimension_ + 1 ∧
      path.value.values_.getD 0 0 = process.x0 ∧
      ∀ i, 1 ≤ i → i ≤ self.dimension_ →
        path.value.values_.getD i 0 =
          process.evolve (self.timeGrid_.time (i - 1)) (path.value.values_.getD (i - 1) 0)
            (self.timeGrid_.dt (i - 1)) 0 := by
  have hlast : (self.generator_.lastSequence).1 =
      { value := List.replicate self.dimension_ 0, weight := 1 } := by
    show self.generator_.sequence_ = _
    rw [hfresh, RngBuffer.construct_sequence, hdim]
  have hinc : incrementsOf self
      (if true = true then self.generator_.lastSequence
        else self.generator_.nextSequence G).1.value = List.replicate self.dimension_ 0 := by
    simp only [if_true, hlast, incrementsOf, hbridge, Bool.false_eq_true, if_false]
  have hanti := nextImpl_eq G self true process hprocess
    (by rw [hinc, List.length_replicate])
  rw [hinc] at hanti
  have hvals : ((List.replicate self.timeGrid_.size (0 : ℚ)).set 0 process.x0).length
      = self.dimension_ + 1 := by
    rw [List.length_set, List.length_replicate, hgrid]
  obtain ⟨h1, h2, h3⟩ :=
    evolveLoop_recurrence process self.timeGrid_ (List.replicate self.dimension_ 0) true _
      self.dimension_ hvals
  refine ⟨hlast, _, _, hanti, h1, ?_, ?_⟩
  · show (evolveLoop process self.timeGrid_ _ true _).getD 0 0 = process.x0
    rw [h2]
    exact getD_set_self _ _ _ (by rw [List.length_replicate, hgrid]; omega)
  · intro i hi1 hi2
    have h := h3 i hi1 hi2
    simp only [if_true, getD_replicate_zero, neg_zero] at h
    exact h

/-- Witness of `antithetic_before_next`: the generator `sampleGenerator false`,
whose buffer is freshly constructed over `rampSource` (dimension `2`). -/
theorem antithetic_before_next_witness :
    ((sampleGenerator false).generator_.lastSequence).1 =
      { value := List.replicate (sampleGenerator false).dimension_ 0, weight := 1 } ∧
    ∃ path generator,
      antithetic rampSource (sampleGenerator false) = Except.ok (path, generator) ∧
      path.value.length = (sampleGenerator false).dimension_ + 1 ∧
      path.value.values_.getD 0 0 = sampleProcess.x0 ∧
      ∀ i, 1 ≤ i → i ≤ (sampleGenerator false).dimension_ →
        path.value.values_.getD i 0 =
          sampleProcess.evolve ((sampleGenerator false).timeGrid_.time (i - 1))
            (path.value.values_.getD (i - 1) 0)
            ((sampleGenerator false).timeGrid_.dt (i - 1)) 0 :=
  antithetic_before_next rampSource 0 (sampleGenerator false) sampleProcess rfl rfl rfl rfl rfl

end PathGenerator

/-! ## Arithmetic of the accumulation loops -/

namespace ArithmeticAPOPathPricer

theorem foldl_getD_range (l : List ℚ) (s : ℚ) :
    (List.range l.length).foldl (fun s i => s + l.getD i 0) s = s + l.sum := by
  induction l generalizing s with
  | nil => simp
  | cons a l ih =>
    rw [List.length_cons, List.range_succ_eq_map, List.foldl_cons, List.foldl_map]
    simp only [List.getD_cons_zero, List.getD_cons_succ, List.sum_cons]
    rw [ih]
    ring

theorem accumulateAll_eq (l : List ℚ) (s : ℚ) :
    accumulateAll l l.length s = s + l.sum :=
  foldl_getD_range l s

theorem accumulateFromSecond_eq (l : List ℚ) (s : ℚ) :
    accumulateFromSecond l (l.length + 1) s = s + l.sum := by
  unfold accumulateFromSecond
  rw [Nat.add_sub_cancel, List.range'_eq_map_range, List.foldl_map]
  simp only [Nat.add_sub_cancel_left]
  exact foldl_getD_range l s

theorem sizeAdd_of_lt {a b : Nat} (h : a + b < 2 ^ 64) : sizeAdd a b = a + b := by
  unfold sizeAdd sizeModulus
  exact Nat.mod_eq_of_lt h

theorem sizeSub_sizeAdd_one {a b : Nat} (hb : 1 ≤ a + b) (h : a + b - 1 < 2 ^ 64) :
    sizeSub (sizeAdd a b) 1 = a + b - 1 := by
  unfold sizeSub sizeAdd sizeModulus
  omega

/-- The sums and the counts of the two branches of `evaluate`, for a path of
length `> 1`: all the values with `pastFixings_ + n`, or the values after the
first with `pastFixings_ + n - 1`, both counts in `Size` arithmetic. -/
theorem sumAndFixings_eq (self : ArithmeticAPOPathPricer) (path : Path) (t0 : ℚ)
    (hn : 1 < path.length) :
    sumAndFixings self path path.length t0 =
      if t0 = 0 then
        (self.runningSum_ + path.values_.sum, sizeAdd self.pastFixings_ path.length)
      else
        (self.runningSum_ + (path.values_.drop 1).sum,
          sizeSub (sizeAdd self.pastFixings_ path.length) 1) := by
  have hlen : path.length = path.values_.length := rfl
  unfold sumAndFixings
  by_cases h0 : t0 = 0
  · rw [if_pos h0, if_pos h0]
    congr 1
    rw [hlen]
    exact accumulateAll_eq _ _
  · rw [if_neg h0, if_neg h0]
    congr 1
    have hdrop : path.length = (path.values_.drop 1).length + 1 := by
      rw [List.length_drop]; omega
    rw [hdrop]
    exact accumulateFromSecond_eq _ _

/-- The value of `evaluate` on a path of length `> 1` whose grid has the first
mandatory time `t0`, in terms of the pair computed by the branch. -/
theorem evaluate_eq_of_mandatoryTimes (self : ArithmeticAPOPathPricer) (path : Path)
    (t0 : ℚ) (rest : List ℚ)
    (hgrid : path.timeGrid.mandatoryTimes = t0 :: rest) (hn : 1 < path.length) :
    evaluate self path =
      if (sumAndFixings self path path.length t0).2 = 0 then
        Except.error Failure.divisionByZero
      else
        Except.ok (self.discount_ * self.payoff_.apply
          ((sumAndFixings self path path.length t0).1 /
            ((sumAndFixings self path path.length t0).2 : ℚ))) := by
  unfold evaluate
  simp only [hgrid, gt_iff_lt, hn, not_true_eq_false, if_false]

/-- **C1** (as amended).  For a path of length `n > 1` whose grid has a first
mandatory time `t0`: if `t0 = 0` and `pastFixings + n` does not wrap around, the
pricer returns `discount * payoff ((runningSum + Σ all values) / (pastFixings + n))`;
if `t0 ≠ 0` and `pastFixings + n - 1` does not wrap around, it returns
`discount * payoff ((runningSum + Σ values at 1..n-1) / (pastFixings + n - 1))`;
the payoff is `max (a - strike) 0` for a call and `max (strike - a) 0` for a put. -/
theorem evaluate_eq_discounted_payoff (self : ArithmeticAPOPathPricer) (path : Path)
    (t0 : ℚ) (rest : List ℚ)
    (hgrid : path.timeGrid.mandatoryTimes = t0 :: rest) (hn : 1 < path.length) :
    (t0 = 0 → self.pastFixings_ + path.length < 2 ^ 64 →
      evaluate self path = Except.ok (self.discount_ *
        (match self.payoff_.type_ with
          | OptionType.Call =>
            max ((self.runningSum_ + path.values_.sum) /
              ((self.pastFixings_ + path.length : Nat) : ℚ) - self.payoff_.strike_) 0
          | OptionType.Put =>
            max (self.payoff_.strike_ - (self.runningSum_ + path.values_.sum) /
              ((self.pastFixings_ + path.length : Nat) : ℚ)) 0))) ∧
    (t0 ≠ 0 → self.pastFixings_ + path.length - 1 < 2 ^ 64 →
      evaluate self path = Except.ok (self.discount_ *
        (match self.payoff_.type_ with
          | OptionType.Call =>
            max ((self.runningSum_ + (path.values_.drop 1).sum) /
              ((self.pastFixings_ + path.length - 1 : Nat) : ℚ) - self.payoff_.strike_) 0
          | OptionType.Put =>
            max (self.payoff_.strike_ - (self.runningSum_ + (path.values_.drop 1).sum) /
              ((self.pastFixings_ + path.length - 1 : Nat) : ℚ)) 0))) := by
  have hev := evaluate_eq_of_mandatoryTimes self path t0 rest hgrid hn
  rw [sumAndFixings_eq self path t0 hn] at hev
  constructor
  · intro h0 hwrap
    have hfix : sizeAdd self.pastFixings_ path.length ≠ 0 := by
      rw [sizeAdd_of_lt hwrap]; omega
    rw [if_pos h0] at hev
    rw [hev, if_neg hfix, sizeAdd_of_lt hwrap]
    rfl
  · intro h0 hwrap
    have hfix : sizeSub (sizeAdd self.pastFixings_ path.length) 1 ≠ 0 := by
      rw [sizeSub_sizeAdd_one (by omega) hwrap]; omega
    rw [if_neg h0] at hev
    rw [hev, if_neg hfix, sizeSub_sizeAdd_one (by omega) hwrap]
    rfl

/-- Witness of `evaluate_eq_discounted_payoff`: one path per branch, priced by
`seasonedPricer` (three past fixings, running sum `1`). -/
theorem evaluate_eq_discounted_payoff_witness :
    evaluate seasonedPricer unitPathFromZero = Except.ok (seasonedPricer.discount_ *
        (match seasonedPricer.payoff_.type_ with
          | OptionType.Call =>
            max ((seasonedPricer.runningSum_ + unitPathFromZero.values_.sum) /
              ((seasonedPricer.pastFixings_ + unitPathFromZero.length : Nat) : ℚ)
                - seasonedPricer.payoff_.strike_) 0
          | OptionType.Put =>
            max (seasonedPricer.payoff_.strike_ -
              (seasonedPricer.runningSum_ + unitPathFromZero.values_.sum) /
              ((seasonedPricer.pastFixings_ + unitPathFromZero.length : Nat) : ℚ)) 0)) ∧
    evaluate seasonedPricer unitPathToOne = Except.ok (seasonedPricer.discount_ *
        (match seasonedPricer.payoff_.type_ with
          | OptionType.Call =>
            max ((seasonedPricer.runningSum_ + (unitPathToOne.values_.drop 1).sum) /
              ((seasonedPricer.pastFixings_ + unitPathToOne.length - 1 : Nat) : ℚ)
                - seasonedPricer.payoff_.strike_) 0
          | OptionType.Put =>
            max (seasonedPricer.payoff_.strike_ -
              (seasonedPricer.runningSum_ + (unitPathToOne.values_.drop 1).sum) /
              ((seasonedPricer.pastFixings_ + unitPathToOne.length - 1 : Nat) : ℚ)) 0)) :=
  ⟨(evaluate_eq_discounted_payoff seasonedPricer unitPathFromZero 0 [1] rfl (by decide)).1
      rfl (by decide),
    (evaluate_eq_discounted_payoff seasonedPricer unitPathToOne 1 [] rfl (by decide)).2
      (by decide) (by decide)⟩

/-- **C1** (as stated) fails when the count wraps around: with
`pastFixings = 2 ^ 64 - 1` and the two-point path `[1, 1]` on a grid whose first
mandatory time is `0`, the code divides the sum `2` by
`(2 ^ 64 - 1 + 2) mod 2 ^ 64 = 1` and returns `2`, whereas
`discount * payoff ((runningSum + Σ values) / (pastFixings + n))` is
`2 / (2 ^ 64 + 1)`. -/
theorem evaluate_wraps_past_fixings :
    unitPathFromZero.timeGrid.mandatoryTimes = 0 :: [1] ∧
    1 < unitPathFromZero.length ∧
    0 ≤ saturatedPricer.payoff_.strike_ ∧
    evaluate saturatedPricer unitPathFromZero = Except.ok 2 ∧
    saturatedPricer.discount_ *
        max ((saturatedPricer.runningSum_ + unitPathFromZero.values_.sum) /
          ((saturatedPricer.pastFixings_ + unitPathFromZero.length : Nat) : ℚ)
            - saturatedPricer.payoff_.strike_) 0 = 2 / (2 ^ 64 + 1) ∧
    evaluate saturatedPricer unitPathFromZero ≠ Except.ok (saturatedPricer.discount_ *
        max ((saturatedPricer.runningSum_ + unitPathFromZero.values_.sum) /
          ((saturatedPricer.pastFixings_ + unitPathFromZero.length : Nat) : ℚ)
            - saturatedPricer.payoff_.strike_) 0) := by
  have hev : evaluate saturatedPricer unitPathFromZero = Except.ok 2 := by
    norm_num [evaluate, sumAndFixings, accumulateAll, sizeAdd, sizeModulus,
      PlainVanillaPayoff.apply, saturatedPricer, unitPathFromZero, gridFromZero, Path.length,
      Path.timeGrid, TimeGrid.mandatoryTimes, List.range, List.range.loop]
  have hclaim : saturatedPricer.discount_ *
        max ((saturatedPricer.runningSum_ + unitPathFromZero.values_.sum) /
          ((saturatedPricer.pastFixings_ + unitPathFromZero.length : Nat) : ℚ)
            - saturatedPricer.payoff_.strike_) 0 = 2 / (2 ^ 64 + 1) := by
    norm_num [saturatedPricer, unitPathFromZero, Path.length]
  refine ⟨rfl, by decide, by decide, hev, hclaim, ?_⟩
  rw [hev, hclaim]
  intro h
  have h2 : (2 : ℚ) = 2 / (2 ^ 64 + 1) := Except.ok.inj h
  norm_num at h2

/-- **C6**.  Construction of the pricer fails (with the strike error) for every
strike `< 0` and succeeds for every strike `≥ 0`, whatever the option type, the
discount factor, the running sum and the past fixings are. -/
theorem construct_fails_iff_strike_negative (type : OptionType)
    (strike discount runningSum : ℚ) (pastFixings : Nat) :
    (strike < 0 →
      construct type strike discount runningSum pastFixings =
        Except.error Failure.strikeLessThanZero) ∧
    (0 ≤ strike →
      construct type strike discount runningSum pastFixings =
        Except.ok { payoff_ := { type_ := type, strike_ := strike }
                    discount_ := discount
                    runningSum_ := runningSum
                    pastFixings_ := pastFixings }) := by
  constructor
  · intro h
    have h' : ¬ strike ≥ 0 := not_le.mpr h
    simp only [construct, h', if_false]
  · intro h
    have h' : strike ≥ 0 := h
    simp only [construct, h', if_true]

/-- Witness of `construct_fails_iff_strike_negative`: strike `-1` is refused,
strike `100` is accepted. -/
theorem construct_fails_iff_strike_negative_witness :
    construct OptionType.Put (-1) 1 0 0 = Except.error Failure.strikeLessThanZero ∧
    construct OptionType.Call 100 (19 / 20) 0 0 =
      Except.ok { payoff_ := { type_ := OptionType.Call, strike_ := 100 }
                  discount_ := 19 / 20
                  runningSum_ := 0
                  pastFixings_ := 0 } :=
  ⟨(construct_fails_iff_strike_negative OptionType.Put (-1) 1 0 0).1 (by decide),
    (construct_fails_iff_strike_negative OptionType.Call 100 (19 / 20) 0 0).2 (by decide)⟩

/-- **C7**.  `evaluate` fails with the empty-path error for every path of length
`0` or `1`, whatever the pricer and the grid are, and never fails with that error
for a path of length `≥ 2`. -/
theorem evaluate_pathEmpty_iff (self : ArithmeticAPOPathPricer) (path : Path) :
    (path.length ≤ 1 → evaluate self path = Except.error Failure.pathEmpty) ∧
    (2 ≤ path.length → evaluate self path ≠ Except.error Failure.pathEmpty) := by
  constructor
  · intro h
    have h' : ¬ path.length > 1 := by omega
    simp only [evaluate, h', not_false_eq_true, if_true]
  · intro h
    have h' : path.length > 1 := by omega
    unfold evaluate
    simp only [h', not_true_eq_false, if_false]
    cases path.timeGrid.mandatoryTimes with
    | nil => simp
    | cons t0 rest =>
      simp only
      split <;> simp

/-- Witness of `evaluate_pathEmpty_iff`: a one-point path is refused with the
empty-path error, a two-point path is not. -/
theorem evaluate_pathEmpty_iff_witness :
    evaluate seasonedPricer singletonPath = Except.error Failure.pathEmpty ∧
    evaluate seasonedPricer unitPathToOne ≠ Except.error Failure.pathEmpty :=
  ⟨(evaluate_pathEmpty_iff seasonedPricer singletonPath).1 (by decide),
    (evaluate_pathEmpty_iff seasonedPricer unitPathToOne).2 (by decide)⟩

/-- **C11**.  Pricer example B over the rationals: for the path
`[100, 102, 98, 105, 110]` on a grid whose first mandatory time is `0`, a call with
strike `100`, discount `19/20`, no running sum and no past fixing, the pricer is
constructed, computes the sum `515`, the count `5`, the average `103`, the payoff
`3` and returns `57/20`. -/
theorem evaluate_example_B :
    construct OptionType.Call 100 (19 / 20) 0 0 = Except.ok examplePricer ∧
    examplePath.timeGrid.mandatoryTimes = 0 :: [1, 2, 3, 4] ∧
    sumAndFixings examplePricer examplePath examplePath.length 0 = (515, 5) ∧
    (515 : ℚ) / ((5 : Nat) : ℚ) = 103 ∧
    examplePricer.payoff_.apply 103 = 3 ∧
    evaluate examplePricer examplePath = Except.ok (57 / 20) := by
  have hsum : sumAndFixings examplePricer examplePath examplePath.length 0 = (515, 5) := by
    rw [sumAndFixings_eq examplePricer examplePath 0 (by decide)]
    norm_num [examplePricer, examplePath, Path.length, sizeAdd, sizeModulus]
  have hpay : examplePricer.payoff_.apply 103 = 3 := by
    norm_num [examplePricer, PlainVanillaPayoff.apply]
  refine ⟨?_, rfl, hsum, by norm_num, hpay, ?_⟩
  · norm_num [construct, examplePricer]
  · rw [evaluate_eq_of_mandatoryTimes examplePricer examplePath 0 [1, 2, 3, 4] rfl
      (by decide), hsum]
    norm_num [examplePricer, PlainVanillaPayoff.apply]

theorem sumAndFixings_snd (self : ArithmeticAPOPathPricer) (path : Path) (n : Nat)
    (t0 : ℚ) :
    (sumAndFixings self path n t0).2 =
      if t0 = 0 then sizeAdd self.pastFixings_ n
      else sizeSub (sizeAdd self.pastFixings_ n) 1 := by
  unfold sumAndFixings
  split <;> rfl

/-- **C18**.  For a path of length `n ≥ 2` and a count of past fixings such that
`pastFixings + n` does not wrap around, the divisor computed by `evaluate` is
`pastFixings + n ≥ 2` when the first mandatory time is `0` and
`pastFixings + n - 1 ≥ 1` otherwise; so `evaluate` does not divide by zero. -/
theorem evaluate_divisor_positive (self : ArithmeticAPOPathPricer) (path : Path) (t0 : ℚ)
    (hn : 2 ≤ path.length) (hwrap : self.pastFixings_ + path.length < 2 ^ 64) :
    (t0 = 0 →
      (sumAndFixings self path path.length t0).2 = self.pastFixings_ + path.length ∧
      2 ≤ (sumAndFixings self path path.length t0).2) ∧
    (t0 ≠ 0 →
      (sumAndFixings self path path.length t0).2 = self.pastFixings_ + path.length - 1 ∧
      1 ≤ (sumAndFixings self path path.length t0).2) ∧
    evaluate self path ≠ Except.error Failure.divisionByZero := by
  have hbranch : ∀ t : ℚ, 1 ≤ (sumAndFixings self path path.length t).2 := by
    intro t
    rw [sumAndFixings_snd]
    split
    · rw [sizeAdd_of_lt hwrap]; omega
    · rw [sizeSub_sizeAdd_one (by omega) (by omega)]; omega
  refine ⟨?_, ?_, ?_⟩
  · intro h0
    rw [sumAndFixings_snd, if_pos h0, sizeAdd_of_lt hwrap]
    exact ⟨rfl, by omega⟩
  · intro h0
    rw [sumAndFixings_snd, if_neg h0, sizeSub_sizeAdd_one (by omega) (by omega)]
    exact ⟨rfl, by omega⟩
  · cases hgrid : path.timeGrid.mandatoryTimes with
    | nil =>
      unfold evaluate
      have hn' : path.length > 1 := by omega
      simp [hn', hgrid]
    | cons t rest =>
      rw [evaluate_eq_of_mandatoryTimes self path t rest hgrid (by omega)]
      have := hbranch t
      rw [if_neg (by omega)]
      simp

/-- Witness of `evaluate_divisor_positive`: `seasonedPricer` (three past fixings)
on the two-point path `unitPathToOne`, with first mandatory time `1`. -/
theorem evaluate_divisor_positive_witness :
    ((1 : ℚ) = 0 →
      (sumAndFixings seasonedPricer unitPathToOne unitPathToOne.length 1).2
        = seasonedPricer.pastFixings_ + unitPathToOne.length ∧
      2 ≤ (sumAndFixings seasonedPricer unitPathToOne unitPathToOne.length 1).2) ∧
    ((1 : ℚ) ≠ 0 →
      (sumAndFixings seasonedPricer unitPathToOne unitPathToOne.length 1).2
        = seasonedPricer.pastFixings_ + unitPathToOne.length - 1 ∧
      1 ≤ (sumAndFixings seasonedPricer unitPathToOne unitPathToOne.length 1).2) ∧
    evaluate seasonedPricer unitPathToOne ≠ Except.error Failure.divisionByZero :=
  evaluate_divisor_positive seasonedPricer unitPathToOne 1 (by decide) (by decide)

theorem max_sub_max_eq (a k : ℚ) : max (a - k) 0 - max (k - a) 0 = a - k := by
  rcases le_total a k with h | h
  · rw [max_eq_right (by linarith), max_eq_left (by linarith)]
    ring
  · rw [max_eq_left (by linarith), max_eq_right (by linarith)]
    ring

/-- **C19** (as amended).  For a path of length `≥ 2` whose grid has a first
mandatory time `t0`, and a strike, discount, running sum and count of past
fixings for which the divisor computed by the pricer is not zero, the call pricer
and the put pricer built with these parameters both return, and the call result
minus the put result is `discount * (average - strike)`, the average being the
sum of the branch divided by the count of the branch. -/
theorem call_minus_put (strike discount runningSum : ℚ) (pastFixings : Nat) (path : Path)
    (t0 : ℚ) (rest : List ℚ)
    (hgrid : path.timeGrid.mandatoryTimes = t0 :: rest) (hn : 2 ≤ path.length)
    (hfix : (if t0 = 0 then sizeAdd pastFixings path.length
      else sizeSub (sizeAdd pastFixings path.length) 1) ≠ 0) :
    ∃ c p,
      evaluate
        { payoff_ := { type_ := OptionType.Call, strike_ := strike }
          discount_ := discount, runningSum_ := runningSum, pastFixings_ := pastFixings }
        path = Except.ok c ∧
      evaluate
        { payoff_ := { type_ := OptionType.Put, strike_ := strike }
          discount_ := discount, runningSum_ := runningSum, pastFixings_ := pastFixings }
        path = Except.ok p ∧
      c - p = discount *
        ((if t0 = 0 then runningSum + path.values_.sum
            else runningSum + (path.values_.drop 1).sum) /
          (((if t0 = 0 then sizeAdd pastFixings path.length
            else sizeSub (sizeAdd pastFixings path.length) 1) : Nat) : ℚ) - strike) := by
  have hn' : 1 < path.length := by omega
  have hcall := evaluate_eq_of_mandatoryTimes
    { payoff_ := { type_ := OptionType.Call, strike_ := strike }
      discount_ := discount, runningSum_ := runningSum, pastFixings_ := pastFixings }
    path t0 rest hgrid hn'
  have hput := evaluate_eq_of_mandatoryTimes
    { payoff_ := { type_ := OptionType.Put, strike_ := strike }
      discount_ := discount, runningSum_ := runningSum, pastFixings_ := pastFixings }
    path t0 rest hgrid hn'
  rw [sumAndFixings_eq _ path t0 hn'] at hcall hput
  by_cases h0 : t0 = 0
  · simp only [h0, if_true] at hcall hput hfix ⊢
    rw [if_neg hfix] at hcall hput
    refine ⟨_, _, hcall, hput, ?_⟩
    simp only [PlainVanillaPayoff.apply]
    rw [← mul_sub, max_sub_max_eq]
  · simp only [h0, if_false] at hcall hput hfix ⊢
    rw [if_neg hfix] at hcall hput
    refine ⟨_, _, hcall, hput, ?_⟩
    simp only [PlainVanillaPayoff.apply]
    rw [← mul_sub, max_sub_max_eq]

/-- Witness of `call_minus_put`: strike `1`, discount `1`, running sum `1` and
three past fixings on the two-point path `unitPathFromZero`. -/
theorem call_minus_put_witness :
    ∃ c p,
      evaluate
        { payoff_ := { type_ := OptionType.Call, strike_ := 1 }
          discount_ := 1, runningSum_ := 1, pastFixings_ := 3 }
        unitPathFromZero = Except.ok c ∧
      evaluate
        { payoff_ := { type_ := OptionType.Put, strike_ := 1 }
          discount_ := 1, runningSum_ := 1, pastFixings_ := 3 }
        unitPathFromZero = Except.ok p ∧
      c - p = 1 *
        ((if (0 : ℚ) = 0 then 1 + unitPathFromZero.values_.sum
            else 1 + (unitPathFromZero.values_.drop 1).sum) /
          (((if (0 : ℚ) = 0 then sizeAdd 3 unitPathFromZero.length
            else sizeSub (sizeAdd 3 unitPathFromZero.length) 1) : Nat) : ℚ) - 1) :=
  call_minus_put 1 1 1 3 unitPathFromZero 0 [1] rfl (by decide) (by decide)

/-- **C19** (as stated) fails when the divisor wraps around to zero: with
`pastFixings = 2 ^ 64 - 2` and the two-point path `[0, 0]` on a grid whose first
mandatory time is `0`, the count is `(2 ^ 64 - 2 + 2) mod 2 ^ 64 = 0`; the call
and the put pricer both divide `0` by `0`, neither computes an average, and there
are no two results whose difference is `discount * (average - strike)`. -/
theorem call_minus_put_zero_divisor :
    2 ≤ zeroPath.length ∧
    0 ≤ (wrappingPricer OptionType.Call).payoff_.strike_ ∧
    (sumAndFixings (wrappingPricer OptionType.Call) zeroPath zeroPath.length 0) = (0, 0) ∧
    evaluate (wrappingPricer OptionType.Call) zeroPath
      = Except.error Failure.divisionByZero ∧
    evaluate (wrappingPricer OptionType.Put) zeroPath
      = Except.error Failure.divisionByZero ∧
    ¬ ∃ c p average : ℚ,
      evaluate (wrappingPricer OptionType.Call) zeroPath = Except.ok c ∧
      evaluate (wrappingPricer OptionType.Put) zeroPath = Except.ok p ∧
      c - p = (wrappingPricer OptionType.Call).discount_ *
        (average - (wrappingPricer OptionType.Call).payoff_.strike_) := by
  have hsum : ∀ type : OptionType,
      sumAndFixings (wrappingPricer type) zeroPath zeroPath.length 0 = (0, 0) := by
    intro type
    rw [sumAndFixings_eq (wrappingPricer type) zeroPath 0 (by decide)]
    norm_num [wrappingPricer, zeroPath, Path.length, sizeAdd, sizeModulus]
  have hev : ∀ type : OptionType,
      evaluate (wrappingPricer type) zeroPath = Except.error Failure.divisionByZero := by
    intro type
    rw [evaluate_eq_of_mandatoryTimes (wrappingPricer type) zeroPath 0 [1] rfl (by decide),
      hsum type]
    rfl
  refine ⟨by decide, by decide, hsum _, hev _, hev _, ?_⟩
  rintro ⟨c, p, average, hc, -, -⟩
  rw [hev] at hc
  cases hc

end ArithmeticAPOPathPricer

end QuantLib
